import Mathlib

/-!
# The bundle decoder of `internal/bundle/bundle.go`

A shallow embedding of the Go package `bundle` and theorems about it.

Conventions of the embedding.

* A Go `[]byte` is a `GoSlice`: the backing array seen from the first element of the
  slice up to its capacity (`mem`), and the length (`len`).  Go checks an index against
  the length and the upper bound of a slice expression against the *capacity*, so both
  are kept.  Bytes are natural numbers; real buffers hold values below 256.
* A Go `string` is the sequence of its bytes (`GoString`), so the result of
  `base64.URLEncoding.EncodeToString` is the list of its ASCII codes.
* A Go function returning `(value, error)` returns `Except Fault value`.  A `Fault` is
  either an `error` value handed back to the caller (`Fault.err`) or a run-time panic of
  the Go runtime (`Fault.panic`), which is not a returned error.
* `types.SignatureConfig` and the Avro engine `avro.Unmarshal` are not part of the
  package; the functions take them as parameters (`SignatureConfig`, `unmarshal`).
* Go `int` is 64 bits wide; every quantity computed here is a sum of a few 16-bit
  values and registry lengths, so natural-number arithmetic is exact.
-/

set_option maxRecDepth 100000

namespace bundle

/-! ## Results, errors and panics -/

/-- Run-time panics raised by the Go runtime on a failed bounds check. -/
inductive Panic where
  /-- The message is `index out of range`. -/
  | indexOutOfRange
  /-- The message is `slice bounds out of range`. -/
  | sliceBoundsOutOfRange
  deriving DecidableEq, Repr

/-- Errors of the Avro engine (`avro.Unmarshal`). -/
inductive AvroError where
  | unexpectedEOF
  | negativeLength
  | varintOverflow
  deriving DecidableEq, Repr

/-- The `error` values created by the package. -/
inductive DecodeError where
  /-- The value of `fmt.Errorf("unsupported signature type:%d", SignatureType)`. -/
  | unsupportedSignatureType (code : Nat)
  /-- The value of `errors.New("dataItem longer than expected signature length")`. -/
  | signatureLength
  /-- The value of `errors.New("binary too small")`. -/
  | binaryTooSmall
  /-- The value of `errors.New("binary length must more than 32")`. -/
  | bundleTooSmall
  /-- An error returned by `avro.Unmarshal`, passed on unchanged. -/
  | avro (e : AvroError)
  deriving DecidableEq, Repr

/-- Ways in which a call does not produce a value: a returned `error`, or a panic. -/
inductive Fault where
  | err (e : DecodeError)
  | panic (p : Panic)
  deriving DecidableEq, Repr

/-- Equality of results is decidable, so closed facts about the decoder are checked by
evaluation. -/
instance instDecidableEqExcept {ε α : Type} [DecidableEq ε] [DecidableEq α] :
    DecidableEq (Except ε α)
  | .ok a, .ok b =>
    if h : a = b then isTrue (by rw [h]) else isFalse (fun h2 => h (Except.ok.inj h2))
  | .error a, .error b =>
    if h : a = b then isTrue (by rw [h]) else isFalse (fun h2 => h (Except.error.inj h2))
  | .ok _, .error _ => isFalse (fun h => Except.noConfusion h)
  | .error _, .ok _ => isFalse (fun h => Except.noConfusion h)

/-! ## Go slices and strings -/

/-- A Go string, as the sequence of its bytes. -/
abbrev GoString := List Nat

/-- A Go byte slice: `mem` is the backing array from the slice's first element up to
its capacity, `len` is the length of the slice. -/
structure GoSlice where
  mem : List Nat
  len : Nat
  len_le : len ≤ mem.length

namespace GoSlice

/-- The capacity `cap(s)`. -/
def cap (s : GoSlice) : Nat := s.mem.length

/-- The elements of the slice, `s[0], ..., s[len(s)-1]`. -/
def bytes (s : GoSlice) : List Nat := s.mem.take s.len

/-- A slice whose capacity equals its length, holding `bs`. -/
def ofBytes (bs : List Nat) : GoSlice := ⟨bs, bs.length, le_refl _⟩

/-- A slice of length `bs.length` whose backing array goes on with `spare`. -/
def ofBytesCap (bs spare : List Nat) : GoSlice :=
  ⟨bs ++ spare, bs.length, by simp⟩

/-- The same slice over a longer backing array: more capacity, same length. -/
def extend (s : GoSlice) (spare : List Nat) : GoSlice :=
  ⟨s.mem ++ spare, s.len, by rw [List.length_append]; exact Nat.le_add_right_of_le s.len_le⟩

/-- The index expression `s[i]`: panics unless `i < len(s)`. -/
def index (s : GoSlice) (i : Nat) : Except Fault Nat :=
  if i < s.len then .ok (s.mem.getD i 0) else .error (.panic .indexOutOfRange)

/-- The slice expression `s[lo:hi]`: panics unless `lo ≤ hi ≤ cap(s)`. -/
def slice (s : GoSlice) (lo hi : Nat) : Except Fault GoSlice :=
  if h : lo ≤ hi ∧ hi ≤ s.mem.length then
    .ok ⟨s.mem.drop lo, hi - lo, by rw [List.length_drop]; omega⟩
  else .error (.panic .sliceBoundsOutOfRange)

/-- The slice expression `s[lo:]`, whose upper bound is `len(s)`. -/
def sliceFrom (s : GoSlice) (lo : Nat) : Except Fault GoSlice :=
  s.slice lo s.len

end GoSlice

/-- The function `binary.LittleEndian.Uint16`: `_ = b[1]`, then `b[0] | b[1]<<8`, which
for byte values is `b[0] + 256 * b[1]`. -/
def littleEndianUint16 (b : GoSlice) : Except Fault Nat := do
  let b1 ← b.index 1
  let b0 ← b.index 0
  pure (b0 + 256 * b1)

/-! ## base64url (`base64.URLEncoding`, with padding) -/

/-- The ASCII code of the character for a 6-bit value in the URL alphabet
`A-Z a-z 0-9 - _`. -/
def base64URLChar (n : Nat) : Nat :=
  if n < 26 then 65 + n
  else if n < 52 then 97 + (n - 26)
  else if n < 62 then 48 + (n - 52)
  else if n = 62 then 45
  else 95

/-- The function `base64.URLEncoding.EncodeToString`: three bytes give four
characters; a last group of one or two bytes is padded with `=` (code 61). -/
def EncodeToString : List Nat → GoString
  | [] => []
  | [a] => [base64URLChar (a / 4 % 64), base64URLChar (a % 4 * 16), 61, 61]
  | [a, b] =>
    [base64URLChar (a / 4 % 64), base64URLChar (a % 4 * 16 + b / 16 % 16),
      base64URLChar (b % 16 * 4), 61]
  | a :: b :: c :: rest =>
    base64URLChar (a / 4 % 64) :: base64URLChar (a % 4 * 16 + b / 16 % 16) ::
      base64URLChar (b % 16 * 4 + c / 64 % 4) :: base64URLChar (c % 64) ::
      EncodeToString rest

/-! ## The data model (`internal/types`) -/

/-- An entry of `types.SignatureConfig`. -/
structure SignatureMeta where
  SignatureLength : Nat
  PublicKeyLength : Nat
  deriving DecidableEq, Repr

/-- The type `types.Tag`. -/
structure Tag where
  Name : GoString
  Value : GoString
  deriving DecidableEq, Repr

/-- The type `types.DataItem`. -/
structure DataItem where
  SignatureType : Nat
  Signature : GoString
  Owner : GoString
  Target : GoString
  Anchor : GoString
  Tags : List Tag
  RawData : GoString
  deriving DecidableEq, Repr

/-- The type `types.Bundle`. -/
structure Bundle where
  Items : List DataItem
  RawData : GoString
  deriving DecidableEq, Repr

/-- The zero value of `types.DataItem`, with which `make([]types.DataItem, N)` fills
the slice. -/
def DataItem.zero : DataItem := ⟨0, [], [], [], [], [], []⟩

/-- One element of the Avro array read by `decodeAvro`: a record with the two `bytes`
fields `name` and `value`. -/
structure AvroRecord where
  name : List Nat
  value : List Nat
  deriving DecidableEq, Repr

/-! ## The data item decoder -/

/-- The function `getSignatureMetadata`. -/
def getSignatureMetadata (SignatureConfig : Nat → Option SignatureMeta)
    (data : GoSlice) (N : Nat) : Except Fault (Nat × Nat × Nat) := do
  let SignatureType ← littleEndianUint16 data
  match SignatureConfig SignatureType with
  | none => .error (.err (.unsupportedSignatureType SignatureType))
  | some signatureMeta =>
    if N < signatureMeta.SignatureLength + 2 then
      .error (.err .signatureLength)
    else
      pure (SignatureType, signatureMeta.SignatureLength, signatureMeta.PublicKeyLength)

/-- The function `getTarget`. -/
def getTarget (data : GoSlice) (startAt : Nat) : Except Fault (GoString × Nat) := do
  let position := startAt
  let flag ← data.index startAt
  if flag = 1 then
    let value ← data.slice (startAt + 1) (startAt + 1 + 32)
    pure (EncodeToString value.bytes, position + 32)
  else
    pure ([], position)

/-- The function `getAnchor`. -/
def getAnchor (data : GoSlice) (startAt : Nat) : Except Fault (GoString × Nat) := do
  let position := startAt
  let flag ← data.index startAt
  if flag = 1 then
    let value ← data.slice (position + 1) (position + 1 + 32)
    pure (EncodeToString value.bytes, position + 32)
  else
    pure ([], position)

/-- The function `decodeAvro`: the schema is a constant that parses, so the `panic(err)`
after `avro.Parse` is never reached; each record becomes a `Tag`. -/
def decodeAvro (unmarshal : List Nat → Except AvroError (List AvroRecord))
    (data : GoSlice) : Except Fault (List Tag) :=
  match unmarshal data.bytes with
  | .error e => .error (.err (.avro e))
  | .ok avroTags => .ok (avroTags.map fun v => { Name := v.name, Value := v.value })

/-- The function `decodeTags`, returning the tags and the new cursor `tagsEnd`
(`println(tags)` writes to standard error only). -/
def decodeTags (unmarshal : List Nat → Except AvroError (List AvroRecord))
    (data : GoSlice) (startAt : Nat) : Except Fault (List Tag × Nat) := do
  let tagsEnd := startAt + 8
  let countField ← data.slice startAt (startAt + 8)
  let numberOfTags ← littleEndianUint16 countField
  if numberOfTags > 0 then
    let numberOfTagBytesStart := startAt + 8
    let numberOfTagBytesEnd := numberOfTagBytesStart + 8
    let lengthField ← data.slice numberOfTagBytesStart numberOfTagBytesEnd
    let numberOfTagBytes ← littleEndianUint16 lengthField
    let bytesDataStart := numberOfTagBytesEnd
    let bytesDataEnd := numberOfTagBytesEnd + numberOfTagBytes
    let bytesData ← data.slice bytesDataStart bytesDataEnd
    let tags ← decodeAvro unmarshal bytesData
    pure (tags, bytesDataEnd)
  else
    pure ([], tagsEnd)

/-- The function `DecodeDataItem`. -/
def DecodeDataItem (SignatureConfig : Nat → Option SignatureMeta)
    (unmarshal : List Nat → Except AvroError (List AvroRecord))
    (data : GoSlice) : Except Fault DataItem :=
  let N := data.len
  if N < 2 then .error (.err .binaryTooSmall)
  else do
    let head ← data.slice 0 2
    let (signatureType, signatureLength, publicKeyLength) ←
      getSignatureMetadata SignatureConfig head N
    let signatureStart := 2
    let signatureEnd := signatureLength + signatureStart
    let signatureBytes ← data.slice signatureStart signatureEnd
    let signature := EncodeToString signatureBytes.bytes
    let ownerStart := signatureEnd
    let ownerEnd := ownerStart + publicKeyLength
    let ownerBytes ← data.slice ownerStart ownerEnd
    let owner := EncodeToString ownerBytes.bytes
    let position := 2 + ownerEnd
    let (target, position) ← getTarget data position
    let (anchor, position) ← getAnchor data position
    let (tags, position) ← decodeTags unmarshal data position
    let rawData ← data.sliceFrom position
    pure
      { SignatureType := signatureType
        Signature := signature
        Owner := owner
        Target := target
        Anchor := anchor
        Tags := tags
        RawData := EncodeToString rawData.bytes }

/-! ## The bundle decoder -/

/-- The type `bundleHeader`. -/
structure bundleHeader where
  id : Nat
  size : Nat
  deriving DecidableEq, Repr

/-- The loop `for i := 32; i < 32+64*N; i += 64` of `decodeBundleHeader`.  It makes
exactly `N` rounds; the first argument counts the rounds still to make, `i` is the loop
variable and `headers` the slice built so far. -/
def decodeBundleHeaderLoop (data : GoSlice) :
    Nat → Nat → List bundleHeader → Except Fault (List bundleHeader)
  | 0, _, headers => pure headers
  | rounds + 1, i, headers => do
    let sizeField ← data.slice i (i + 32)
    let size ← littleEndianUint16 sizeField
    let idField ← data.slice (i + 32) (i + 64)
    let id ← littleEndianUint16 idField
    decodeBundleHeaderLoop data rounds (i + 64) (headers ++ [{ id := id, size := size }])

/-- The function `decodeBundleHeader`. -/
def decodeBundleHeader (data : GoSlice) : Except Fault (List bundleHeader × Nat) := do
  let countField ← data.slice 0 32
  let N ← littleEndianUint16 countField
  let headers ← decodeBundleHeaderLoop data N 32 []
  pure (headers, N)

/-- The call `DecodeDataItem(data[lo:hi])`: the slice expression, then the decoder on
the slice it yields (which keeps the capacity of `data` beyond `hi`). -/
def DecodeDataItemAt (SignatureConfig : Nat → Option SignatureMeta)
    (unmarshal : List Nat → Except AvroError (List AvroRecord))
    (data : GoSlice) (lo hi : Nat) : Except Fault DataItem :=
  match data.slice lo hi with
  | .error f => .error f
  | .ok itemBytes => DecodeDataItem SignatureConfig unmarshal itemBytes

/-- The loop `for i := 0; i < N; i++` of `DecodeBundle`.  The first argument counts the
rounds still to make (`N - i`); `items` is `bundle.Items`. -/
def decodeBundleLoop (SignatureConfig : Nat → Option SignatureMeta)
    (unmarshal : List Nat → Except AvroError (List AvroRecord))
    (data : GoSlice) (headers : List bundleHeader) :
    Nat → Nat → Nat → List DataItem → Except Fault (List DataItem)
  | 0, _, _, items => pure items
  | rounds + 1, i, bundleStart, items =>
    match headers[i]? with
    | none => .error (.panic .indexOutOfRange)
    | some header =>
      let bundleEnd := bundleStart + header.size
      match DecodeDataItemAt SignatureConfig unmarshal data bundleStart bundleEnd with
      | .error f => .error f
      | .ok dataItem =>
        decodeBundleLoop SignatureConfig unmarshal data headers rounds (i + 1) bundleEnd
          (items.set i dataItem)

/-- The function `DecodeBundle`. -/
def DecodeBundle (SignatureConfig : Nat → Option SignatureMeta)
    (unmarshal : List Nat → Except AvroError (List AvroRecord))
    (data : GoSlice) : Except Fault Bundle :=
  if data.len < 32 then .error (.err .bundleTooSmall)
  else do
    let (headers, N) ← decodeBundleHeader data
    let items := List.replicate N DataItem.zero
    let rawData := EncodeToString data.bytes
    let bundleStart := 32 + 64 * N
    let items ← decodeBundleLoop SignatureConfig unmarshal data headers N 0 bundleStart items
    pure { Items := items, RawData := rawData }

/-! ## Vocabulary of the statements -/

/-- The little-endian 16-bit value stored at offset `i` of the buffer:
`data[i] + 256 * data[i+1]`. -/
def uint16At (data : GoSlice) (i : Nat) : Nat :=
  data.mem.getD i 0 + 256 * data.mem.getD (i + 1) 0

/-- The declared item count `N = data[0] + 256 * data[1]` of a bundle. -/
def declaredCount (data : GoSlice) : Nat := uint16At data 0

/-- The declared size `size_i` of item `i`: the 16-bit value at offset `32 + 64 * i`. -/
def declaredSize (data : GoSlice) (i : Nat) : Nat := uint16At data (32 + 64 * i)

/-- The offsets of the item ranges: `off_0 = 32 + 64 * N`, `off_(i+1) = off_i + size_i`. -/
def itemOffset (data : GoSlice) : Nat → Nat
  | 0 => 32 + 64 * declaredCount data
  | i + 1 => itemOffset data i + declaredSize data i

/-- The bytes `data[lo], ..., data[hi-1]` of an item range, on their own. -/
def itemBytes (data : GoSlice) (lo hi : Nat) : List Nat :=
  (data.mem.drop lo).take (hi - lo)

/-- The tag payload region of a tag field starting at `startAt`: the `L` bytes from
offset `startAt + 16`, where `L` is the 16-bit value at `startAt + 8`. -/
def tagPayload (data : GoSlice) (startAt : Nat) : List Nat :=
  (data.mem.drop (startAt + 16)).take (uint16At data (startAt + 8))

/-- The header that `decodeBundleHeader` reads at offset `i`: the size from the first
two bytes of `data[i:i+32]`, the id from the first two bytes of `data[i+32:i+64]`. -/
def headerAt (data : GoSlice) (i : Nat) : bundleHeader :=
  { id := uint16At data (i + 32), size := uint16At data i }

/-- The tag that `decodeAvro` makes of a record. -/
def tagOfRecord (v : AvroRecord) : Tag := { Name := v.name, Value := v.value }

/-! ## A reference reading of the Avro binary encoding

`avro.Unmarshal` belongs to the library `github.com/hamba/avro`.  The statements about
all buffers take it as the parameter `unmarshal`.  The closed examples need one concrete
engine: `avroUnmarshal` below reads the Avro binary encoding of the schema of
`decodeAvro` (an array of records with the `bytes` fields `name` and `value`) as the
Avro specification lays it out: a `long` is a zig-zag variable-length integer, `bytes`
is a `long` length and that many bytes, an array is a series of blocks, each a `long`
count (a negative count is followed by the byte size of the block) and that many items,
closed by a block of count zero.

The library is more lenient than this reading on input that is not a complete array: it
takes the end of the input for the end of the data (`Unmarshal` returns `nil` on
`io.EOF`, so a payload that breaks off yields records) and lets an over-long integer
wrap around, where `avroUnmarshal` returns an error.  The closed examples therefore use
`avroUnmarshal` on complete payloads only. -/

/-- Reads a variable-length integer of at most `fuel` bytes, least significant group
first. -/
def readVarint : Nat → List Nat → Except AvroError (Nat × List Nat)
  | 0, _ => .error .varintOverflow
  | _ + 1, [] => .error .unexpectedEOF
  | fuel + 1, b :: rest =>
    if b < 128 then .ok (b, rest)
    else
      match readVarint fuel rest with
      | .error e => .error e
      | .ok (v, rest2) => .ok (b % 128 + 128 * v, rest2)

/-- Reads an Avro `long`: a zig-zag coded integer of at most ten bytes. -/
def readLong (bs : List Nat) : Except AvroError (Int × List Nat) :=
  match readVarint 10 bs with
  | .error e => .error e
  | .ok (n, rest) =>
    .ok (if n % 2 = 0 then Int.ofNat (n / 2) else Int.negSucc (n / 2), rest)

/-- Reads an Avro `bytes` value. -/
def readBytes (bs : List Nat) : Except AvroError (List Nat × List Nat) :=
  match readLong bs with
  | .error e => .error e
  | .ok (n, rest) =>
    if n < 0 then .error .negativeLength
    else if rest.length < n.toNat then .error .unexpectedEOF
    else .ok (rest.take n.toNat, rest.drop n.toNat)

/-- Reads one record: the field `name`, then the field `value`. -/
def readRecord (bs : List Nat) : Except AvroError (AvroRecord × List Nat) :=
  match readBytes bs with
  | .error e => .error e
  | .ok (name, rest) =>
    match readBytes rest with
    | .error e => .error e
    | .ok (value, rest2) => .ok ({ name := name, value := value }, rest2)

/-- Reads the `count` records of one block. -/
def readItems : Nat → List Nat → Except AvroError (List AvroRecord × List Nat)
  | 0, bs => .ok ([], bs)
  | count + 1, bs =>
    match readRecord bs with
    | .error e => .error e
    | .ok (r, rest) =>
      match readItems count rest with
      | .error e => .error e
      | .ok (rs, rest2) => .ok (r :: rs, rest2)

/-- Reads the blocks of an array up to the closing block of count zero.  Every block
takes at least one byte, so `fuel` above the number of bytes is never used up. -/
def readBlocks : Nat → List Nat → Except AvroError (List AvroRecord)
  | 0, _ => .error .unexpectedEOF
  | fuel + 1, bs =>
    match readLong bs with
    | .error e => .error e
    | .ok (count, rest) =>
      if count = 0 then .ok []
      else
        let body : Except AvroError (List Nat) :=
          if count < 0 then
            match readLong rest with
            | .error e => .error e
            | .ok (_, rest2) => .ok rest2
          else .ok rest
        match body with
        | .error e => .error e
        | .ok rest2 =>
          match readItems count.natAbs rest2 with
          | .error e => .error e
          | .ok (rs, rest3) =>
            match readBlocks fuel rest3 with
            | .error e => .error e
            | .ok more => .ok (rs ++ more)

/-- The reference engine used in closed examples. -/
def avroUnmarshal (bs : List Nat) : Except AvroError (List AvroRecord) :=
  readBlocks (bs.length + 1) bs

/-! ## Sample inputs of the closed examples -/

/-- A registry for the closed examples: code 1 with lengths (512, 512) and code 2 with
lengths (64, 32), the RSA and Ed25519 entries of the bundle format. -/
def sampleSignatureConfig : Nat → Option SignatureMeta := fun code =>
  if code = 1 then some { SignatureLength := 512, PublicKeyLength := 512 }
  else if code = 2 then some { SignatureLength := 64, PublicKeyLength := 32 }
  else none

/-- The bytes `[code 2][64 signature bytes][32 owner bytes]`, all values zero. -/
def sampleItemHead : List Nat := [2, 0] ++ List.replicate 64 0 ++ List.replicate 32 0

/-- A data item as the decoder accepts it: `sampleItemHead`, ten more zero bytes, then
`payload`.  The decoder finds no target, no anchor and no tags in it. -/
def sampleItem (payload : List Nat) : List Nat :=
  sampleItemHead ++ List.replicate 10 0 ++ payload

/-- A header record: a 32-byte size field holding `size` and a 32-byte id field
holding `id` (both below 256). -/
def sampleHeader (size id : Nat) : List Nat :=
  [size] ++ List.replicate 31 0 ++ [id] ++ List.replicate 31 0

/-- A bundle of two items, of 108 and 110 bytes. -/
def sampleBundle : GoSlice :=
  GoSlice.ofBytes ([2] ++ List.replicate 31 0 ++ sampleHeader 108 0 ++ sampleHeader 110 1 ++
    sampleItem [] ++ sampleItem [5, 6])

/-- A bundle of two items whose second item carries the unregistered code 9. -/
def sampleBundleBadItem : GoSlice :=
  GoSlice.ofBytes ([2] ++ List.replicate 31 0 ++ sampleHeader 108 0 ++ sampleHeader 110 1 ++
    sampleItem [] ++ ([9, 0] ++ List.replicate 108 0))

/-- What the decoder returns for `sampleItem payload`. -/
def sampleDataItem (payload : List Nat) : DataItem :=
  { SignatureType := 2
    Signature := EncodeToString (List.replicate 64 0)
    Owner := EncodeToString (List.replicate 32 0)
    Target := []
    Anchor := []
    Tags := []
    RawData := EncodeToString payload }

/-- A tag field declaring three tags whose ten-byte payload holds the two records
(`a`, `b`) and (`c`, `d`): one block of count 2, closed by the count 0. -/
def sampleTagField : List Nat :=
  [3, 0, 0, 0, 0, 0, 0, 0] ++ [10, 0, 0, 0, 0, 0, 0, 0] ++
    [4, 2, 97, 2, 98, 2, 99, 2, 100, 0]

/-- A 32-byte target value. -/
def sampleTarget : List Nat := 7 :: List.replicate 31 0

/-! ## The cursor at the payload, and the value of a fixed-width field -/

/-- The cursor of `DecodeDataItem` when it reaches `rawData := data[position:]`: the
`position` handed back by `decodeTags`, reached by the same steps as in
`DecodeDataItem`. -/
def payloadCursor (SignatureConfig : Nat → Option SignatureMeta)
    (unmarshal : List Nat → Except AvroError (List AvroRecord))
    (data : GoSlice) : Except Fault Nat :=
  let N := data.len
  if N < 2 then .error (.err .binaryTooSmall)
  else do
    let head ← data.slice 0 2
    let (_, signatureLength, publicKeyLength) ←
      getSignatureMetadata SignatureConfig head N
    let signatureStart := 2
    let signatureEnd := signatureLength + signatureStart
    let _ ← data.slice signatureStart signatureEnd
    let ownerStart := signatureEnd
    let ownerEnd := ownerStart + publicKeyLength
    let _ ← data.slice ownerStart ownerEnd
    let position := 2 + ownerEnd
    let (_, position) ← getTarget data position
    let (_, position) ← getAnchor data position
    let (_, position) ← decodeTags unmarshal data position
    pure position

/-- The little-endian value of a field: `b_0 + 256 * b_1 + 256^2 * b_2 + ...`. -/
def littleEndianValue : List Nat → Nat
  | [] => 0
  | b :: rest => b + 256 * littleEndianValue rest

/-- A tag field declaring one tag whose four-byte payload is complete but gives the
name of its one record the length -1 (the byte 1): one block of count 1, the record,
the closing count 0. -/
def sampleBrokenTagField : List Nat :=
  [1, 0, 0, 0, 0, 0, 0, 0] ++ [4, 0, 0, 0, 0, 0, 0, 0] ++ [2, 1, 0, 0]

/-- The first 146 bytes of a bundle of one item of 110 bytes: the count field, the
header, and 50 of the bytes of the item. -/
def sampleCutBundleBytes : List Nat :=
  [1] ++ List.replicate 31 0 ++ sampleHeader 110 0 ++ ([2, 0] ++ List.replicate 48 0)

/-- The buffer `sampleCutBundleBytes` (length 146) over a backing array that goes on
with `spare`. -/
def sampleCutBundle (spare : List Nat) : GoSlice :=
  GoSlice.ofBytesCap sampleCutBundleBytes spare

/-- The minimal item of the closed example for code 2: signature bytes 3, owner bytes 4,
both flags 0, tag count 0, tag payload length 0. -/
def sampleMinimalItem : List Nat :=
  [2, 0] ++ List.replicate 64 3 ++ List.replicate 32 4 ++ [0] ++ [0] ++
    List.replicate 8 0 ++ List.replicate 8 0

/-- A header record whose fields are filled up: the size field holds `size` in its
first byte and `fill` in bytes 2 to 31, the id field holds `fill` throughout. -/
def sampleNoisyHeader (size fill : Nat) : List Nat :=
  [size, 0] ++ List.replicate 30 fill ++ List.replicate 32 fill

/-- The bundle `sampleBundle` with other bytes 2 to 31 in the count field and in the
size fields, and other id fields. -/
def sampleNoisyBundle : GoSlice :=
  GoSlice.ofBytes ([2, 0] ++ List.replicate 30 9 ++ sampleNoisyHeader 108 7 ++
    sampleNoisyHeader 110 8 ++ sampleItem [] ++ sampleItem [5, 6])

/-! ## Lemmas on slices and the two loops -/

theorem slice_eq_ok (s : GoSlice) (lo hi : Nat) (h1 : lo ≤ hi) (h2 : hi ≤ s.mem.length) :
    s.slice lo hi = .ok ⟨s.mem.drop lo, hi - lo, by rw [List.length_drop]; omega⟩ := by
  simp [GoSlice.slice, h1, h2]

theorem slice_eq_panic (s : GoSlice) (lo hi : Nat) (h : ¬ (lo ≤ hi ∧ hi ≤ s.mem.length)) :
    s.slice lo hi = .error (.panic .sliceBoundsOutOfRange) := by
  simp only [GoSlice.slice, h, dite_false]

theorem littleEndianUint16_mk (m : List Nat) (n : Nat) (h : n ≤ m.length) (h2 : 2 ≤ n) :
    littleEndianUint16 ⟨m, n, h⟩ = .ok (m.getD 0 0 + 256 * m.getD 1 0) := by
  have h0 : 0 < n := by omega
  have h1 : 1 < n := by omega
  simp [littleEndianUint16, GoSlice.index, h0, h1, bind, Except.bind, pure, Except.pure]

theorem getD_drop (m : List Nat) (i j : Nat) : (m.drop i).getD j 0 = m.getD (i + j) 0 := by
  simp [List.getD_eq_getElem?_getD, List.getElem?_drop]

/-- A call `DecodeDataItem(data[lo:hi])` that returns a value or an `error` did not
panic in the slice expression, so `lo ≤ hi ≤ cap(data)`. -/
theorem DecodeDataItemAt_bounds (cfg : Nat → Option SignatureMeta)
    (um : List Nat → Except AvroError (List AvroRecord)) (data : GoSlice) (lo hi : Nat)
    (h : DecodeDataItemAt cfg um data lo hi ≠ .error (.panic .sliceBoundsOutOfRange)) :
    lo ≤ hi ∧ hi ≤ data.mem.length := by
  by_contra hc
  apply h
  simp only [DecodeDataItemAt, slice_eq_panic data lo hi hc]

theorem decodeBundleHeaderLoop_ok (data : GoSlice) :
    ∀ (n i : Nat) (acc : List bundleHeader), i + 64 * n ≤ data.mem.length →
      decodeBundleHeaderLoop data n i acc =
        .ok (acc ++ (List.range n).map (fun k => headerAt data (i + 64 * k))) := by
  intro n
  induction n with
  | zero => intro i acc _; simp [decodeBundleHeaderLoop, pure, Except.pure]
  | succ n ih =>
    intro i acc h
    have e1 := slice_eq_ok data i (i + 32) (by omega) (by omega)
    have e2 := slice_eq_ok data (i + 32) (i + 64) (by omega) (by omega)
    simp only [decodeBundleHeaderLoop, e1, e2, bind, Except.bind]
    rw [littleEndianUint16_mk _ _ _ (by omega), littleEndianUint16_mk _ _ _ (by omega)]
    simp only []
    rw [ih (i + 64) _ (by omega), List.range_succ_eq_map]
    simp only [List.map_cons, List.map_map, List.append_assoc, List.singleton_append,
      getD_drop, headerAt, uint16At]
    congr 3
    apply List.map_congr_left
    intro k _
    simp only [Function.comp, Nat.succ_eq_add_one]
    have : i + 64 * (k + 1) = i + 64 + 64 * k := by omega
    rw [this]

theorem decodeBundleHeader_ok (data : GoSlice) (h32 : 32 ≤ data.len)
    (h : 32 + 64 * declaredCount data ≤ data.mem.length) :
    decodeBundleHeader data =
      .ok ((List.range (declaredCount data)).map (fun k => headerAt data (32 + 64 * k)),
        declaredCount data) := by
  have hc := data.len_le
  have e1 := slice_eq_ok data 0 32 (by omega) (by omega)
  simp only [decodeBundleHeader, e1, bind, Except.bind]
  rw [littleEndianUint16_mk _ _ _ (by omega)]
  simp only [List.drop_zero]
  have e2 : data.mem.getD 0 0 + 256 * data.mem.getD 1 0 = declaredCount data := rfl
  rw [e2, decodeBundleHeaderLoop_ok data _ 32 [] h]
  rfl

theorem headers_getElem? (data : GoSlice) (j : Nat) (hj : j < declaredCount data) :
    ∃ h, ((List.range (declaredCount data)).map
        (fun k => headerAt data (32 + 64 * k)))[j]? = some h ∧
      h.size = declaredSize data j := by
  refine ⟨headerAt data (32 + 64 * j), ?_, rfl⟩
  simp [List.getElem?_map, List.getElem?_range hj]

theorem itemOffset_mono (data : GoSlice) (i j : Nat) (h : i ≤ j) :
    itemOffset data i ≤ itemOffset data j := by
  induction j with
  | zero => simp_all
  | succ j ih =>
    rcases Nat.eq_or_lt_of_le h with h1 | h1
    · rw [h1]
    · have := ih (by omega)
      simp only [itemOffset]
      omega

theorem take_succ_set (l : List DataItem) (i : Nat) (a : DataItem) (h : i < l.length) :
    (l.set i a).take (i + 1) = l.take i ++ [a] := by
  have e : (l.set i a).take i = l.take i := by
    apply List.ext_getElem?
    intro j
    rw [List.getElem?_take, List.getElem?_take]
    split
    · rw [List.getElem?_set_ne (by omega)]
    · rfl
  rw [List.take_succ, e, List.getElem?_set_self h]
  rfl

/-- Items `i, i+1, ...` all decode: the loop stores each at its index. -/
theorem decodeBundleLoop_ok (cfg : Nat → Option SignatureMeta)
    (um : List Nat → Except AvroError (List AvroRecord)) (data : GoSlice)
    (headers : List bundleHeader) (target : List DataItem)
    (hh : ∀ j, j < target.length → ∃ h, headers[j]? = some h ∧ h.size = declaredSize data j)
    (hit : ∀ j (hj : j < target.length),
      DecodeDataItemAt cfg um data (itemOffset data j) (itemOffset data (j + 1)) =
        .ok (target.get ⟨j, hj⟩)) :
    ∀ (r i : Nat) (items : List DataItem), i + r = target.length →
      items.length = target.length →
      decodeBundleLoop cfg um data headers r i (itemOffset data i) items =
        .ok (items.take i ++ target.drop i) := by
  intro r
  induction r with
  | zero =>
    intro i items hi hl
    have hi2 : i = target.length := by omega
    simp [decodeBundleLoop, pure, Except.pure, hi2, ← hl]
  | succ r ih =>
    intro i items hi hl
    have hlt : i < target.length := by omega
    obtain ⟨h, hh1, hh2⟩ := hh i hlt
    have hs := hit i hlt
    have hoff : itemOffset data (i + 1) = itemOffset data i + h.size := by
      simp only [itemOffset, hh2]
    rw [hoff] at hs
    simp only [decodeBundleLoop, hh1, hs]
    rw [← hoff, ih (i + 1) _ (by omega) (by simpa using hl)]
    congr 1
    rw [take_succ_set _ _ _ (by omega), List.drop_eq_getElem_cons hlt]
    simp

/-- Items before `k` decode and item `k` fails: the loop fails the same way. -/
theorem decodeBundleLoop_fail (cfg : Nat → Option SignatureMeta)
    (um : List Nat → Except AvroError (List AvroRecord)) (data : GoSlice)
    (headers : List bundleHeader) (k : Nat) (f : Fault)
    (hh : ∀ j, j ≤ k → ∃ h, headers[j]? = some h ∧ h.size = declaredSize data j)
    (hit : ∀ j, j < k → ∃ d,
      DecodeDataItemAt cfg um data (itemOffset data j) (itemOffset data (j + 1)) = .ok d)
    (hk : DecodeDataItemAt cfg um data (itemOffset data k) (itemOffset data (k + 1)) =
      .error f) :
    ∀ (r i : Nat) (items : List DataItem), i ≤ k → k < i + r →
      decodeBundleLoop cfg um data headers r i (itemOffset data i) items = .error f := by
  intro r
  induction r with
  | zero => intro i items h1 h2; omega
  | succ r ih =>
    intro i items h1 h2
    obtain ⟨h, hh1, hh2⟩ := hh i h1
    have hoff : itemOffset data (i + 1) = itemOffset data i + h.size := by
      simp only [itemOffset, hh2]
    rcases Nat.eq_or_lt_of_le h1 with hik | hik
    · subst hik
      rw [hoff] at hk
      simp only [decodeBundleLoop, hh1, hk]
    · obtain ⟨d, hs⟩ := hit i hik
      rw [hoff] at hs
      simp only [decodeBundleLoop, hh1, hs]
      rw [← hoff]
      exact ih (i + 1) _ (by omega) (by omega)

/-! ## Capacity beyond the length is not looked at -/

theorem index_extend (s : GoSlice) (x : List Nat) (i : Nat) :
    (s.extend x).index i = s.index i := by
  have hc := s.len_le
  simp only [GoSlice.index, GoSlice.extend]
  split
  · rename_i h
    have : i < s.mem.length := by omega
    simp [List.getD_eq_getElem?_getD, List.getElem?_append_left this]
  · rfl

theorem littleEndianUint16_extend (s : GoSlice) (x : List Nat) :
    littleEndianUint16 (s.extend x) = littleEndianUint16 s := by
  simp only [littleEndianUint16, index_extend]

theorem bytes_extend (s : GoSlice) (x : List Nat) : (s.extend x).bytes = s.bytes := by
  simp only [GoSlice.bytes, GoSlice.extend]
  exact List.take_append_of_le_length s.len_le

theorem slice_extend (s : GoSlice) (x : List Nat) (lo hi : Nat) :
    (∃ t, s.slice lo hi = .ok t ∧ (s.extend x).slice lo hi = .ok (t.extend x)) ∨
      s.slice lo hi = .error (.panic .sliceBoundsOutOfRange) := by
  by_cases h : lo ≤ hi ∧ hi ≤ s.mem.length
  · left
    refine ⟨_, slice_eq_ok s lo hi h.1 h.2, ?_⟩
    rw [slice_eq_ok (s.extend x) lo hi h.1 (by simp [GoSlice.extend]; omega)]
    simp only [GoSlice.extend, Except.ok.injEq, GoSlice.mk.injEq, and_true]
    exact List.drop_append_of_le_length (by omega)
  · right
    exact slice_eq_panic s lo hi h

theorem getTarget_extend (s : GoSlice) (x : List Nat) (i : Nat) :
    getTarget (s.extend x) i = getTarget s i ∨ ∃ p, getTarget s i = .error (.panic p) := by
  simp only [getTarget, index_extend]
  cases s.index i with
  | error f => left; rfl
  | ok flag =>
    simp only [bind, Except.bind]
    by_cases hf : flag = 1
    · simp only [hf, if_true]
      rcases slice_extend s x (i + 1) (i + 1 + 32) with ⟨t, h1, h2⟩ | h1
      · left; simp only [h1, h2, bytes_extend]
      · right; exact ⟨.sliceBoundsOutOfRange, by simp only [h1]⟩
    · left; simp only [hf, if_false]

theorem getAnchor_extend (s : GoSlice) (x : List Nat) (i : Nat) :
    getAnchor (s.extend x) i = getAnchor s i ∨ ∃ p, getAnchor s i = .error (.panic p) := by
  simp only [getAnchor, index_extend]
  cases s.index i with
  | error f => left; rfl
  | ok flag =>
    simp only [bind, Except.bind]
    by_cases hf : flag = 1
    · simp only [hf, if_true]
      rcases slice_extend s x (i + 1) (i + 1 + 32) with ⟨t, h1, h2⟩ | h1
      · left; simp only [h1, h2, bytes_extend]
      · right; exact ⟨.sliceBoundsOutOfRange, by simp only [h1]⟩
    · left; simp only [hf, if_false]

theorem decodeTags_extend (um : List Nat → Except AvroError (List AvroRecord))
    (s : GoSlice) (x : List Nat) (i : Nat) :
    decodeTags um (s.extend x) i = decodeTags um s i ∨
      ∃ p, decodeTags um s i = .error (.panic p) := by
  simp only [decodeTags]
  rcases slice_extend s x i (i + 8) with ⟨t, h1, h2⟩ | h1
  · simp only [h1, h2, bind, Except.bind, littleEndianUint16_extend]
    cases littleEndianUint16 t with
    | error f => left; rfl
    | ok n =>
      simp only []
      by_cases hn : n > 0
      · simp only [hn, if_true]
        rcases slice_extend s x (i + 8) (i + 8 + 8) with ⟨t2, h3, h4⟩ | h3
        · simp only [h3, h4, littleEndianUint16_extend]
          cases littleEndianUint16 t2 with
          | error f => left; rfl
          | ok L =>
            simp only []
            rcases slice_extend s x (i + 8 + 8) (i + 8 + 8 + L) with ⟨t3, h5, h6⟩ | h5
            · left; simp only [h5, h6, decodeAvro, bytes_extend]
            · right; exact ⟨.sliceBoundsOutOfRange, by simp only [h5]⟩
        · right; exact ⟨.sliceBoundsOutOfRange, by simp only [h3]⟩
      · left; simp only [hn, if_false]
  · right; exact ⟨.sliceBoundsOutOfRange, by simp only [h1, bind, Except.bind]⟩

/-- A run of `DecodeDataItem` that does not panic gives the same result over a longer
backing array: what lies between the length and the capacity is not looked at. -/
theorem DecodeDataItem_extend (cfg : Nat → Option SignatureMeta)
    (um : List Nat → Except AvroError (List AvroRecord)) (s : GoSlice) (x : List Nat) :
    DecodeDataItem cfg um (s.extend x) = DecodeDataItem cfg um s ∨
      ∃ p, DecodeDataItem cfg um s = .error (.panic p) := by
  have hl : (s.extend x).len = s.len := rfl
  simp only [DecodeDataItem, hl]
  by_cases hN : s.len < 2
  · left; simp only [hN, if_true]
  simp only [hN, if_false]
  rcases slice_extend s x 0 2 with ⟨t, h1, h2⟩ | h1
  swap
  · right; exact ⟨.sliceBoundsOutOfRange, by simp only [h1, bind, Except.bind]⟩
  simp only [h1, h2, bind, Except.bind, getSignatureMetadata, littleEndianUint16_extend]
  cases littleEndianUint16 t with
  | error f => left; rfl
  | ok ty =>
    simp only []
    cases cfg ty with
    | none => left; rfl
    | some meta =>
      simp only []
      by_cases hS : s.len < meta.SignatureLength + 2
      · left; simp only [hS, if_true]
      simp only [hS, if_false, pure, Except.pure]
      rcases slice_extend s x 2 (meta.SignatureLength + 2) with ⟨t2, h3, h4⟩ | h3
      swap
      · right; exact ⟨.sliceBoundsOutOfRange, by simp only [h3]⟩
      simp only [h3, h4, bytes_extend]
      rcases slice_extend s x (meta.SignatureLength + 2)
        (meta.SignatureLength + 2 + meta.PublicKeyLength) with ⟨t3, h5, h6⟩ | h5
      swap
      · right; exact ⟨.sliceBoundsOutOfRange, by simp only [h5]⟩
      simp only [h5, h6, bytes_extend]
      rcases getTarget_extend s x (2 + (meta.SignatureLength + 2 + meta.PublicKeyLength))
        with h7 | ⟨p, h7⟩
      swap
      · right; exact ⟨p, by simp only [h7]⟩
      rw [h7]
      cases getTarget s (2 + (meta.SignatureLength + 2 + meta.PublicKeyLength)) with
      | error f => left; rfl
      | ok tp =>
        obtain ⟨target, pos1⟩ := tp
        simp only []
        rcases getAnchor_extend s x pos1 with h8 | ⟨p, h8⟩
        swap
        · right; exact ⟨p, by simp only [h8]⟩
        rw [h8]
        cases getAnchor s pos1 with
        | error f => left; rfl
        | ok ap =>
          obtain ⟨anchor, pos2⟩ := ap
          simp only []
          rcases decodeTags_extend um s x pos2 with h9 | ⟨p, h9⟩
          swap
          · right; exact ⟨p, by simp only [h9]⟩
          rw [h9]
          cases decodeTags um s pos2 with
          | error f => left; rfl
          | ok gp =>
            obtain ⟨tags, pos3⟩ := gp
            simp only [GoSlice.sliceFrom, hl]
            rcases slice_extend s x pos3 s.len with ⟨t4, h10, h11⟩ | h10
            · left; simp only [h10, h11, bytes_extend]
            · right; exact ⟨.sliceBoundsOutOfRange, by simp only [h10]⟩

/-- The call `DecodeDataItem(data[lo:hi])` inside a larger buffer returns what
`DecodeDataItem` returns on the bytes of the range taken on their own, whenever the
latter does not panic. -/
theorem DecodeDataItemAt_standalone (cfg : Nat → Option SignatureMeta)
    (um : List Nat → Except AvroError (List AvroRecord)) (data : GoSlice) (lo hi : Nat)
    (r : Except Fault DataItem) (h1 : lo ≤ hi) (h2 : hi ≤ data.len)
    (hr : DecodeDataItem cfg um (GoSlice.ofBytes (itemBytes data lo hi)) = r)
    (hnp : ∀ p, r ≠ .error (.panic p)) :
    DecodeDataItemAt cfg um data lo hi = r := by
  have hc := data.len_le
  have hlen : (itemBytes data lo hi).length = hi - lo := by
    simp only [itemBytes, List.length_take, List.length_drop]
    omega
  have hs : data.slice lo hi =
      .ok ((GoSlice.ofBytes (itemBytes data lo hi)).extend ((data.mem.drop lo).drop (hi - lo))) := by
    rw [slice_eq_ok data lo hi h1 (by omega)]
    simp only [GoSlice.extend, GoSlice.ofBytes, Except.ok.injEq, GoSlice.mk.injEq, hlen,
      and_true]
    exact (List.take_append_drop (hi - lo) (data.mem.drop lo)).symm
  simp only [DecodeDataItemAt, hs]
  rcases DecodeDataItem_extend cfg um (GoSlice.ofBytes (itemBytes data lo hi))
    ((data.mem.drop lo).drop (hi - lo)) with h | ⟨p, h⟩
  · rw [h, hr]
  · rw [hr] at h
    exact absurd h (hnp p)

/-- With the count field and the header table inside the capacity, `DecodeBundle` is
its item loop followed by the construction of the bundle. -/
theorem DecodeBundle_eq_loop (cfg : Nat → Option SignatureMeta)
    (um : List Nat → Except AvroError (List AvroRecord)) (data : GoSlice)
    (hlen : 32 ≤ data.len) (h0 : itemOffset data 0 ≤ data.mem.length) :
    DecodeBundle cfg um data =
      (decodeBundleLoop cfg um data
        ((List.range (declaredCount data)).map (fun k => headerAt data (32 + 64 * k)))
        (declaredCount data) 0 (itemOffset data 0)
        (List.replicate (declaredCount data) DataItem.zero)).map
        (fun items => { Items := items, RawData := EncodeToString data.bytes }) := by
  simp only [itemOffset] at h0
  simp only [DecodeBundle, Nat.not_lt.mpr hlen, if_false, decodeBundleHeader_ok data hlen h0,
    bind, Except.bind, itemOffset, pure, Except.pure, Except.map]

/-! ## The bundle decoder: items in header order, and failure of one item -/

/-- Claim C1. For a buffer of at least 32 bytes with declared count `N`, declared sizes
`size_i` and offsets `off_0 = 32 + 64 * N`, `off_(i+1) = off_i + size_i`: if the header
table and every item range lie inside the buffer and `DecodeDataItem` succeeds on every
slice `data[off_i : off_(i+1)]`, then `DecodeBundle` succeeds and returns the bundle
whose `Items` are exactly those `N` results in header order and whose `RawData` is the
base64url encoding of the whole buffer. -/
theorem DecodeBundle_items_in_header_order (cfg : Nat → Option SignatureMeta)
    (um : List Nat → Except AvroError (List AvroRecord)) (data : GoSlice)
    (items : List DataItem) (hlen : 32 ≤ data.len)
    (hN : items.length = declaredCount data)
    (hin : ∀ i, i ≤ declaredCount data → itemOffset data i ≤ data.len)
    (hit : ∀ i (hi : i < items.length),
      DecodeDataItemAt cfg um data (itemOffset data i) (itemOffset data (i + 1)) =
        .ok (items.get ⟨i, hi⟩)) :
    DecodeBundle cfg um data =
      .ok { Items := items, RawData := EncodeToString data.bytes } := by
  have hc := data.len_le
  have h0 : 32 + 64 * declaredCount data ≤ data.mem.length := by
    have := hin 0 (Nat.zero_le _)
    simp only [itemOffset] at this
    omega
  have hloop := decodeBundleLoop_ok cfg um data
    ((List.range (declaredCount data)).map (fun k => headerAt data (32 + 64 * k))) items
    (fun j hj => headers_getElem? data j (by omega)) hit (declaredCount data) 0
    (List.replicate (declaredCount data) DataItem.zero) (by omega) (by simp [hN])
  simp only [itemOffset, List.take_zero, List.drop_zero, List.nil_append] at hloop
  simp only [DecodeBundle, Nat.not_lt.mpr hlen, if_false, decodeBundleHeader_ok data hlen h0,
    bind, Except.bind, hloop, pure, Except.pure]

/-- The two items of `sampleBundle` decode on their slices, so `DecodeBundle` returns
them in header order (an instance of C1). -/
theorem DecodeBundle_items_in_header_order_witness :
    DecodeBundle sampleSignatureConfig avroUnmarshal sampleBundle =
      .ok { Items := [sampleDataItem [], sampleDataItem [5, 6]],
            RawData := EncodeToString sampleBundle.bytes } :=
  DecodeBundle_items_in_header_order sampleSignatureConfig avroUnmarshal sampleBundle
    [sampleDataItem [], sampleDataItem [5, 6]] (by decide) (by decide)
    (by
      intro i hi
      have h2 : i ≤ 2 := hi
      interval_cases i <;> decide)
    (by
      intro i hi
      have h2 : i < 2 := hi
      interval_cases i
      · exact (by decide : DecodeDataItemAt sampleSignatureConfig avroUnmarshal sampleBundle
          (itemOffset sampleBundle 0) (itemOffset sampleBundle 1) = .ok (sampleDataItem []))
      · exact (by decide : DecodeDataItemAt sampleSignatureConfig avroUnmarshal sampleBundle
          (itemOffset sampleBundle 1) (itemOffset sampleBundle 2) = .ok (sampleDataItem [5, 6])))

/-- Claim C9. For a buffer of at least 32 bytes, with `N` and the item ranges as in
`DecodeBundle`: if `DecodeDataItem` returns the error `e` on the slice of item `k`
(`k < N`) after succeeding on the slices of the items before `k`, then `DecodeBundle`
returns the error `e` and no bundle, so none of the items decoded so far. -/
theorem DecodeBundle_item_error_aborts (cfg : Nat → Option SignatureMeta)
    (um : List Nat → Except AvroError (List AvroRecord)) (data : GoSlice)
    (k : Nat) (e : DecodeError) (hlen : 32 ≤ data.len) (hk : k < declaredCount data)
    (hbefore : ∀ i, i < k → ∃ d,
      DecodeDataItemAt cfg um data (itemOffset data i) (itemOffset data (i + 1)) = .ok d)
    (hfail : DecodeDataItemAt cfg um data (itemOffset data k) (itemOffset data (k + 1)) =
      .error (.err e)) :
    DecodeBundle cfg um data = .error (.err e) := by
  have hb := DecodeDataItemAt_bounds cfg um data _ _ (by rw [hfail]; intro h; cases h)
  have hm := itemOffset_mono data 0 k (Nat.zero_le _)
  have h0 : 32 + 64 * declaredCount data ≤ data.mem.length := by
    simp only [itemOffset] at hm
    omega
  have hloop := decodeBundleLoop_fail cfg um data
    ((List.range (declaredCount data)).map (fun k => headerAt data (32 + 64 * k))) k
    (.err e) (fun j hj => headers_getElem? data j (by omega)) hbefore hfail
    (declaredCount data) 0 (List.replicate (declaredCount data) DataItem.zero)
    (Nat.zero_le _) (by omega)
  simp only [itemOffset] at hloop
  simp only [DecodeBundle, Nat.not_lt.mpr hlen, if_false, decodeBundleHeader_ok data hlen h0,
    bind, Except.bind, hloop]

/-- The second item of `sampleBundleBadItem` carries an unregistered code: the bundle
decode returns that item's error (an instance of C9). -/
theorem DecodeBundle_item_error_aborts_witness :
    DecodeBundle sampleSignatureConfig avroUnmarshal sampleBundleBadItem =
      .error (.err (.unsupportedSignatureType 9)) :=
  DecodeBundle_item_error_aborts sampleSignatureConfig avroUnmarshal sampleBundleBadItem 1
    (.unsupportedSignatureType 9) (by decide) (by decide)
    (by
      intro i hi
      have h0 : i = 0 := by omega
      subst h0
      exact ⟨sampleDataItem [], by decide⟩)
    (by decide)

/-- The end-to-end property in terms of items decoded on their own: if the ranges lie
inside the buffer and `DecodeDataItem` succeeds on the bytes of every range taken as a
buffer of its own, `DecodeBundle` returns exactly those results, in header order. -/
theorem DecodeBundle_items_of_standalone_items (cfg : Nat → Option SignatureMeta)
    (um : List Nat → Except AvroError (List AvroRecord)) (data : GoSlice)
    (items : List DataItem) (hlen : 32 ≤ data.len)
    (hN : items.length = declaredCount data)
    (hin : ∀ i, i ≤ declaredCount data → itemOffset data i ≤ data.len)
    (hit : ∀ i (hi : i < items.length),
      DecodeDataItem cfg um
          (GoSlice.ofBytes (itemBytes data (itemOffset data i) (itemOffset data (i + 1)))) =
        .ok (items.get ⟨i, hi⟩)) :
    DecodeBundle cfg um data =
      .ok { Items := items, RawData := EncodeToString data.bytes } := by
  have hc := data.len_le
  have hloop := decodeBundleLoop_ok cfg um data
    ((List.range (declaredCount data)).map (fun k => headerAt data (32 + 64 * k))) items
    (fun j hj => headers_getElem? data j (by omega))
    (fun j hj => DecodeDataItemAt_standalone cfg um data _ _ _
      (itemOffset_mono data j (j + 1) (Nat.le_succ j)) (hin (j + 1) (by omega)) (hit j hj)
      (by intro p h; cases h))
    (declaredCount data) 0 (List.replicate (declaredCount data) DataItem.zero) (by omega)
    (by simp [hN])
  rw [DecodeBundle_eq_loop cfg um data hlen (by have := hin 0 (Nat.zero_le _); omega), hloop]
  simp [Except.map]

/-! ## The tag field -/

/-- Claim C7, as the code has it. Where the declared tag count at `startAt` is greater
than zero and the tag payload region lies inside the buffer, a schema decode that yields
a record list whose length differs from the declared count is not rejected:
`decodeTags` returns one tag per decoded record, in order, and the cursor
`startAt + 16 + L`.  The declared count is only tested against zero. -/
theorem decodeTags_keeps_all_records (um : List Nat → Except AvroError (List AvroRecord))
    (data : GoSlice) (startAt : Nat) (records : List AvroRecord)
    (hcount : 0 < uint16At data startAt)
    (hin : startAt + 16 + uint16At data (startAt + 8) ≤ data.len)
    (hdec : um (tagPayload data startAt) = .ok records)
    (_hne : records.length ≠ uint16At data startAt) :
    decodeTags um data startAt =
      .ok (records.map tagOfRecord, startAt + 16 + uint16At data (startAt + 8)) := by
  have hc := data.len_le
  have e1 := slice_eq_ok data startAt (startAt + 8) (by omega) (by omega)
  have e2 := slice_eq_ok data (startAt + 8) (startAt + 8 + 8) (by omega) (by omega)
  have e3 := slice_eq_ok data (startAt + 8 + 8)
    (startAt + 8 + 8 + uint16At data (startAt + 8)) (by omega) (by omega)
  have u1 : (List.drop startAt data.mem).getD 0 0 + 256 * (List.drop startAt data.mem).getD 1 0
      = uint16At data startAt := by
    simp [uint16At, getD_drop]
  have u2 : (List.drop (startAt + 8) data.mem).getD 0 0 +
      256 * (List.drop (startAt + 8) data.mem).getD 1 0 = uint16At data (startAt + 8) := by
    simp [uint16At, getD_drop]
  have hp : (List.drop (startAt + 8 + 8) data.mem).take
      (startAt + 8 + 8 + uint16At data (startAt + 8) - (startAt + 8 + 8)) =
      tagPayload data startAt := by
    have h1 : startAt + 8 + 8 + uint16At data (startAt + 8) - (startAt + 8 + 8) =
        uint16At data (startAt + 8) := by omega
    have h2 : startAt + 8 + 8 = startAt + 16 := by omega
    rw [h1, h2]
    rfl
  simp only [decodeTags, e1, bind, Except.bind]
  rw [littleEndianUint16_mk _ _ _ (by omega)]
  simp only [u1, gt_iff_lt, hcount, if_true, e2]
  rw [littleEndianUint16_mk _ _ _ (by omega)]
  simp only [u2, e3, decodeAvro, GoSlice.bytes, hp, hdec, pure, Except.pure, tagOfRecord]
  have h2 : startAt + 8 + 8 = startAt + 16 := by omega
  rw [h2]
  rfl

/-- The tag field `sampleTagField` declares three tags and holds two records:
`decodeTags` returns the two tags (an instance of the theorem above). -/
theorem decodeTags_keeps_all_records_witness :
    decodeTags avroUnmarshal (GoSlice.ofBytes sampleTagField) 0 =
      .ok ([{ Name := [97], Value := [98] }, { Name := [99], Value := [100] }], 26) :=
  decodeTags_keeps_all_records avroUnmarshal (GoSlice.ofBytes sampleTagField) 0
    [{ name := [97], value := [98] }, { name := [99], value := [100] }]
    (by decide) (by decide) (by decide) (by decide)

/-- Claim C7, counterexample. A declared count of 3 with only 2 schema-encoded records is
accepted: on `sampleTagField` `decodeTags` returns no error, and `DecodeDataItem` on an
item carrying that tag field returns a data item with the two tags. -/
theorem tag_count_mismatch_accepted :
    uint16At (GoSlice.ofBytes sampleTagField) 0 = 3 ∧
    avroUnmarshal (tagPayload (GoSlice.ofBytes sampleTagField) 0) =
      .ok [{ name := [97], value := [98] }, { name := [99], value := [100] }] ∧
    (decodeTags avroUnmarshal (GoSlice.ofBytes sampleTagField) 0).toBool = true ∧
    (DecodeDataItem sampleSignatureConfig avroUnmarshal
        (GoSlice.ofBytes (sampleItemHead ++ [0, 0] ++ sampleTagField))).map
      (fun d => d.Tags) =
      .ok [{ Name := [97], Value := [98] }, { Name := [99], Value := [100] }] := by
  decide

/-- Claim C8, what the code does. With at least 16 bytes from `startAt` and a declared
tag count of zero, `decodeTags` returns an empty tag list and no error, but the cursor
`startAt + 8`: it is advanced past the tag-count field only, not past the
tag-payload-length field. -/
theorem decodeTags_zero_count_cursor (um : List Nat → Except AvroError (List AvroRecord))
    (data : GoSlice) (startAt : Nat) (hin : startAt + 16 ≤ data.len)
    (hcount : uint16At data startAt = 0) :
    decodeTags um data startAt = .ok ([], startAt + 8) := by
  have hc := data.len_le
  have e1 := slice_eq_ok data startAt (startAt + 8) (by omega) (by omega)
  have u1 : (List.drop startAt data.mem).getD 0 0 + 256 * (List.drop startAt data.mem).getD 1 0
      = uint16At data startAt := by
    simp [uint16At, getD_drop]
  simp only [decodeTags, e1, bind, Except.bind]
  rw [littleEndianUint16_mk _ _ _ (by omega)]
  simp only [u1, hcount, gt_iff_lt, Nat.lt_irrefl, if_false, pure, Except.pure]

/-- Sixteen zero bytes, read as a tag field at offset 0: the cursor returned is 8, not
16. -/
theorem decodeTags_zero_count_cursor_witness :
    decodeTags avroUnmarshal (GoSlice.ofBytes (List.replicate 16 0)) 0 = .ok ([], 8) :=
  decodeTags_zero_count_cursor avroUnmarshal (GoSlice.ofBytes (List.replicate 16 0)) 0
    (by decide) (by decide)

/-! ## The data item decoder on short and on wire-format buffers -/

/-- Claim C3, what the code does. For a registered code with lengths `(s, p)` and a
buffer, of capacity equal to its length, with `2 + s ≤ len(data) < 2 + s + p`:
`getSignatureMetadata` only compares the length with `s + 2`, so `DecodeDataItem`
returns no error; the slice expression `data[ownerStart:ownerEnd]` panics. -/
theorem DecodeDataItem_short_owner_panics (cfg : Nat → Option SignatureMeta)
    (um : List Nat → Except AvroError (List AvroRecord)) (bs : List Nat) (s p : Nat)
    (hreg : cfg (bs.getD 0 0 + 256 * bs.getD 1 0) =
      some { SignatureLength := s, PublicKeyLength := p })
    (hlo : 2 + s ≤ bs.length) (hhi : bs.length < 2 + s + p) :
    DecodeDataItem cfg um (GoSlice.ofBytes bs) = .error (.panic .sliceBoundsOutOfRange) := by
  have e1 := slice_eq_ok (GoSlice.ofBytes bs) 0 2 (by omega) (by simp [GoSlice.ofBytes]; omega)
  have e2 := slice_eq_ok (GoSlice.ofBytes bs) 2 (s + 2) (by omega)
    (by simp [GoSlice.ofBytes]; omega)
  have e3 := slice_eq_panic (GoSlice.ofBytes bs) (s + 2) (s + 2 + p)
    (by simp [GoSlice.ofBytes]; omega)
  have hN : ¬ (GoSlice.ofBytes bs).len < 2 := by simp [GoSlice.ofBytes]; omega
  have hS : ¬ (GoSlice.ofBytes bs).len < s + 2 := by simp [GoSlice.ofBytes]; omega
  simp only [DecodeDataItem, hN, if_false, e1, bind, Except.bind, getSignatureMetadata]
  rw [littleEndianUint16_mk _ _ _ (by omega)]
  simp only [List.drop_zero]
  have hm : (GoSlice.ofBytes bs).mem = bs := rfl
  simp only [hm, hreg, hS, if_false, pure, Except.pure, e2, e3]

/-- A 66-byte buffer `[code 2][64 signature bytes]` under the lengths (64, 32): shorter
than `2 + 64 + 32`, and `DecodeDataItem` panics instead of returning an error. -/
theorem DecodeDataItem_short_owner_panics_witness :
    DecodeDataItem sampleSignatureConfig avroUnmarshal
        (GoSlice.ofBytes ([2, 0] ++ List.replicate 64 0)) =
      .error (.panic .sliceBoundsOutOfRange) :=
  DecodeDataItem_short_owner_panics sampleSignatureConfig avroUnmarshal
    ([2, 0] ++ List.replicate 64 0) 64 32 (by decide) (by decide) (by decide)

/-- Claim C2, what the code does. Buffers on which `DecodeDataItem` neither returns a
data item nor an error but panics on a bounds check: the 98 bytes
`[code][signature][owner]` with nothing after them (index out of range in `getTarget`),
the same followed by three zero bytes (slice out of range in `decodeTags`), and the same
followed by `0, 0, 1` (slice out of range in `getTarget`). -/
theorem DecodeDataItem_panics_on_short_input :
    DecodeDataItem sampleSignatureConfig avroUnmarshal (GoSlice.ofBytes sampleItemHead) =
      .error (.panic .indexOutOfRange) ∧
    DecodeDataItem sampleSignatureConfig avroUnmarshal
        (GoSlice.ofBytes (sampleItemHead ++ [0, 0, 0])) =
      .error (.panic .sliceBoundsOutOfRange) ∧
    DecodeDataItem sampleSignatureConfig avroUnmarshal
        (GoSlice.ofBytes (sampleItemHead ++ [0, 0, 1])) =
      .error (.panic .sliceBoundsOutOfRange) := by
  decide

/-- Claim C4, what the code does. On the wire-format buffer
`[code 2][signature][owner][1][T][0][tag count 0][tag payload length 0]` with the target
value `T = sampleTarget`, `DecodeDataItem` succeeds and reports an empty `Target`, not
the encoding of `T`: it takes its flag from offset `4 + s + p`, inside `T`. -/
theorem DecodeDataItem_misses_target :
    (DecodeDataItem sampleSignatureConfig avroUnmarshal
        (GoSlice.ofBytes (sampleItemHead ++ [1] ++ sampleTarget ++ [0] ++
          List.replicate 8 0 ++ List.replicate 8 0))).map (fun d => d.Target) = .ok [] ∧
    EncodeToString sampleTarget ≠ [] ∧ sampleTarget.length = 32 := by
  decide

/-- Claim C5, what the code does. The cursor returned by `getTarget` and by `getAnchor`
is `startAt` when the flag byte is not 1 and `startAt + 32` when it is 1: the flag byte
itself is not counted.  So `getAnchor` tests the last byte of the target value: in the
item below the flag at offset 100 is 1, the 32 bytes after it end in 1, and the byte
that follows them is 9, yet an anchor is reported, read from offset 133 on. -/
theorem getTarget_getAnchor_cursor :
    getTarget (GoSlice.ofBytes [0, 0]) 0 = .ok ([], 0) ∧
    getAnchor (GoSlice.ofBytes [0, 0]) 0 = .ok ([], 0) ∧
    getTarget (GoSlice.ofBytes (1 :: sampleTarget ++ [0])) 0 =
      .ok (EncodeToString sampleTarget, 32) ∧
    getAnchor (GoSlice.ofBytes (1 :: sampleTarget ++ [0])) 0 =
      .ok (EncodeToString sampleTarget, 32) ∧
    (DecodeDataItem sampleSignatureConfig avroUnmarshal
        (GoSlice.ofBytes (sampleItemHead ++ [0, 0] ++ [1] ++ (List.replicate 31 7 ++ [1]) ++
          (List.replicate 31 9 ++ [0]) ++ List.replicate 7 0))).map
      (fun d => (d.Target, d.Anchor)) =
      .ok (EncodeToString (List.replicate 31 7 ++ [1]),
        EncodeToString (List.replicate 31 9 ++ [0])) := by
  decide

/-- Claim C6, what the code does. On the wire-format buffer with target and anchor
absent, zero tags and an empty payload,
`[code 2][signature][owner][0][0][tag count 0][tag payload length 0]`, `DecodeDataItem`
returns as `RawData` the encoding of eight zero bytes, not of the empty byte string. -/
theorem DecodeDataItem_payload_not_after_tags :
    (DecodeDataItem sampleSignatureConfig avroUnmarshal
        (GoSlice.ofBytes (sampleItemHead ++ [0] ++ [0] ++ List.replicate 8 0 ++
          List.replicate 8 0))).map (fun d => d.RawData) =
      .ok (EncodeToString (List.replicate 8 0)) ∧
    EncodeToString (List.replicate 8 0) ≠ EncodeToString [] := by
  decide

/-! ## The bundle decoder on buffers shorter than they declare -/

/-- Claim C10, what the code does. A 32-byte buffer declaring one item (its header table
would end at offset 96), and a buffer whose one header declares an item of 200 bytes
where 108 are present: `DecodeBundle` returns no error but panics in a slice
expression. -/
theorem DecodeBundle_panics_past_the_end :
    DecodeBundle sampleSignatureConfig avroUnmarshal
        (GoSlice.ofBytes ([1] ++ List.replicate 31 0)) =
      .error (.panic .sliceBoundsOutOfRange) ∧
    DecodeBundle sampleSignatureConfig avroUnmarshal
        (GoSlice.ofBytes ([1] ++ List.replicate 31 0 ++ sampleHeader 200 0 ++ sampleItem [])) =
      .error (.panic .sliceBoundsOutOfRange) := by
  decide

/-! ## What each reader computes, in terms of bounds and bytes -/

theorem slice_ok_bytes (data : GoSlice) (lo hi : Nat) (h1 : lo ≤ hi)
    (h2 : hi ≤ data.mem.length) :
    ∃ x, data.slice lo hi = .ok x ∧ x.bytes = itemBytes data lo hi ∧
      x.mem = data.mem.drop lo ∧ x.len = hi - lo :=
  ⟨_, slice_eq_ok data lo hi h1 h2, rfl, rfl, rfl⟩

theorem getTarget_eq (data : GoSlice) (i : Nat) :
    getTarget data i =
      if i < data.len then
        if data.mem.getD i 0 = 1 then
          if i + 33 ≤ data.mem.length then
            .ok (EncodeToString (itemBytes data (i + 1) (i + 33)), i + 32)
          else .error (.panic .sliceBoundsOutOfRange)
        else .ok ([], i)
      else .error (.panic .indexOutOfRange) := by
  simp only [getTarget, GoSlice.index]
  by_cases h : i < data.len
  · simp only [h, if_true, bind, Except.bind]
    by_cases hf : data.mem.getD i 0 = 1
    · simp only [hf, if_true]
      by_cases hb : i + 33 ≤ data.mem.length
      · rw [slice_eq_ok data (i + 1) (i + 1 + 32) (by omega) (by omega)]
        simp only [hb, if_true, pure, Except.pure]
        rfl
      · rw [slice_eq_panic data (i + 1) (i + 1 + 32) (by omega)]
        simp only [hb, if_false]
    · simp only [hf, if_false, pure, Except.pure]
  · simp only [h, if_false, bind, Except.bind]

theorem getAnchor_eq (data : GoSlice) (i : Nat) :
    getAnchor data i =
      if i < data.len then
        if data.mem.getD i 0 = 1 then
          if i + 33 ≤ data.mem.length then
            .ok (EncodeToString (itemBytes data (i + 1) (i + 33)), i + 32)
          else .error (.panic .sliceBoundsOutOfRange)
        else .ok ([], i)
      else .error (.panic .indexOutOfRange) := by
  simp only [getAnchor, GoSlice.index]
  by_cases h : i < data.len
  · simp only [h, if_true, bind, Except.bind]
    by_cases hf : data.mem.getD i 0 = 1
    · simp only [hf, if_true]
      by_cases hb : i + 33 ≤ data.mem.length
      · rw [slice_eq_ok data (i + 1) (i + 1 + 32) (by omega) (by omega)]
        simp only [hb, if_true, pure, Except.pure]
        rfl
      · rw [slice_eq_panic data (i + 1) (i + 1 + 32) (by omega)]
        simp only [hb, if_false]
    · simp only [hf, if_false, pure, Except.pure]
  · simp only [h, if_false, bind, Except.bind]

theorem uint16At_drop (data : GoSlice) (i : Nat) :
    (data.mem.drop i).getD 0 0 + 256 * (data.mem.drop i).getD 1 0 = uint16At data i := by
  simp [uint16At, getD_drop]

theorem decodeTags_eq (um : List Nat → Except AvroError (List AvroRecord))
    (data : GoSlice) (i : Nat) :
    decodeTags um data i =
      if i + 8 ≤ data.mem.length then
        if 0 < uint16At data i then
          if i + 16 + uint16At data (i + 8) ≤ data.mem.length then
            match um (tagPayload data i) with
            | .error e => .error (.err (.avro e))
            | .ok records => .ok (records.map tagOfRecord, i + 16 + uint16At data (i + 8))
          else .error (.panic .sliceBoundsOutOfRange)
        else .ok ([], i + 8)
      else .error (.panic .sliceBoundsOutOfRange) := by
  simp only [decodeTags]
  by_cases h8 : i + 8 ≤ data.mem.length
  swap
  · rw [slice_eq_panic data i (i + 8) (by omega)]
    simp only [h8, if_false, bind, Except.bind]
  rw [slice_eq_ok data i (i + 8) (by omega) h8]
  simp only [h8, if_true, bind, Except.bind]
  rw [littleEndianUint16_mk _ _ _ (by omega)]
  simp only [uint16At_drop, gt_iff_lt]
  by_cases hc : 0 < uint16At data i
  swap
  · simp only [hc, if_false, pure, Except.pure]
  simp only [hc, if_true]
  by_cases h16 : i + 16 ≤ data.mem.length
  swap
  · rw [slice_eq_panic data (i + 8) (i + 8 + 8) (by omega)]
    have : ¬ i + 16 + uint16At data (i + 8) ≤ data.mem.length := by omega
    simp only [this, if_false]
  rw [slice_eq_ok data (i + 8) (i + 8 + 8) (by omega) (by omega)]
  simp only []
  rw [littleEndianUint16_mk _ _ _ (by omega)]
  simp only [uint16At_drop]
  by_cases hL : i + 16 + uint16At data (i + 8) ≤ data.mem.length
  swap
  · rw [slice_eq_panic data (i + 8 + 8) (i + 8 + 8 + uint16At data (i + 8)) (by omega)]
    simp only [hL, if_false]
  rw [slice_eq_ok data (i + 8 + 8) (i + 8 + 8 + uint16At data (i + 8)) (by omega) (by omega)]
  have hp : (List.drop (i + 8 + 8) data.mem).take
      (i + 8 + 8 + uint16At data (i + 8) - (i + 8 + 8)) = tagPayload data i := by
    have h1 : i + 8 + 8 + uint16At data (i + 8) - (i + 8 + 8) = uint16At data (i + 8) := by
      omega
    have h2 : i + 8 + 8 = i + 16 := by omega
    rw [h1, h2]
    rfl
  simp only [hL, if_true, decodeAvro, GoSlice.bytes, hp]
  have h2 : i + 8 + 8 = i + 16 := by omega
  cases um (tagPayload data i) with
  | error e => rfl
  | ok records =>
    simp only [pure, Except.pure, h2]
    rfl

/-- The function `DecodeDataItem` with its slice expressions replaced by their bounds
checks and the bytes they select. -/
theorem DecodeDataItem_eq (cfg : Nat → Option SignatureMeta)
    (um : List Nat → Except AvroError (List AvroRecord)) (data : GoSlice) :
    DecodeDataItem cfg um data =
      if data.len < 2 then .error (.err .binaryTooSmall)
      else
        match cfg (uint16At data 0) with
        | none => .error (.err (.unsupportedSignatureType (uint16At data 0)))
        | some m =>
          if data.len < m.SignatureLength + 2 then .error (.err .signatureLength)
          else if m.SignatureLength + 2 + m.PublicKeyLength ≤ data.mem.length then
            match getTarget data (2 + (m.SignatureLength + 2 + m.PublicKeyLength)) with
            | .error f => .error f
            | .ok (target, pos1) =>
              match getAnchor data pos1 with
              | .error f => .error f
              | .ok (anchor, pos2) =>
                match decodeTags um data pos2 with
                | .error f => .error f
                | .ok (tags, c) =>
                  if c ≤ data.len then
                    .ok
                      { SignatureType := uint16At data 0
                        Signature := EncodeToString (itemBytes data 2 (m.SignatureLength + 2))
                        Owner := EncodeToString (itemBytes data (m.SignatureLength + 2)
                          (m.SignatureLength + 2 + m.PublicKeyLength))
                        Target := target
                        Anchor := anchor
                        Tags := tags
                        RawData := EncodeToString (itemBytes data c data.len) }
                  else .error (.panic .sliceBoundsOutOfRange)
          else .error (.panic .sliceBoundsOutOfRange) := by
  have hc := data.len_le
  simp only [DecodeDataItem]
  by_cases hN : data.len < 2
  · simp only [hN, if_true]
  simp only [hN, if_false]
  rw [slice_eq_ok data 0 2 (by omega) (by omega)]
  simp only [bind, Except.bind, getSignatureMetadata]
  rw [littleEndianUint16_mk _ _ _ (by omega)]
  simp only [uint16At_drop]
  cases cfg (uint16At data 0) with
  | none => rfl
  | some m =>
    simp only []
    by_cases hS : data.len < m.SignatureLength + 2
    · simp only [hS, if_true]
    simp only [hS, if_false, pure, Except.pure]
    rw [slice_eq_ok data 2 (m.SignatureLength + 2) (by omega) (by omega)]
    simp only []
    by_cases hO : m.SignatureLength + 2 + m.PublicKeyLength ≤ data.mem.length
    swap
    · rw [slice_eq_panic data _ _ (by omega)]
      simp only [hO, if_false]
    rw [slice_eq_ok data _ _ (by omega) hO]
    simp only [hO, if_true]
    cases getTarget data (2 + (m.SignatureLength + 2 + m.PublicKeyLength)) with
    | error f => rfl
    | ok tp =>
      obtain ⟨target, pos1⟩ := tp
      simp only []
      cases getAnchor data pos1 with
      | error f => rfl
      | ok ap =>
        obtain ⟨anchor, pos2⟩ := ap
        simp only []
        cases decodeTags um data pos2 with
        | error f => rfl
        | ok gp =>
          obtain ⟨tags, c⟩ := gp
          simp only [GoSlice.sliceFrom]
          by_cases hcl : c ≤ data.len
          · rw [slice_eq_ok data c data.len hcl hc]
            simp only [hcl, if_true]
            rfl
          · rw [slice_eq_panic data c data.len (by omega)]
            simp only [hcl, if_false]

/-- The cursor `payloadCursor`, likewise. -/
theorem payloadCursor_eq (cfg : Nat → Option SignatureMeta)
    (um : List Nat → Except AvroError (List AvroRecord)) (data : GoSlice) :
    payloadCursor cfg um data =
      if data.len < 2 then .error (.err .binaryTooSmall)
      else
        match cfg (uint16At data 0) with
        | none => .error (.err (.unsupportedSignatureType (uint16At data 0)))
        | some m =>
          if data.len < m.SignatureLength + 2 then .error (.err .signatureLength)
          else if m.SignatureLength + 2 + m.PublicKeyLength ≤ data.mem.length then
            match getTarget data (2 + (m.SignatureLength + 2 + m.PublicKeyLength)) with
            | .error f => .error f
            | .ok (_, pos1) =>
              match getAnchor data pos1 with
              | .error f => .error f
              | .ok (_, pos2) =>
                match decodeTags um data pos2 with
                | .error f => .error f
                | .ok (_, c) => .ok c
          else .error (.panic .sliceBoundsOutOfRange) := by
  have hc := data.len_le
  simp only [payloadCursor]
  by_cases hN : data.len < 2
  · simp only [hN, if_true]
  simp only [hN, if_false]
  rw [slice_eq_ok data 0 2 (by omega) (by omega)]
  simp only [bind, Except.bind, getSignatureMetadata]
  rw [littleEndianUint16_mk _ _ _ (by omega)]
  simp only [uint16At_drop]
  cases cfg (uint16At data 0) with
  | none => rfl
  | some m =>
    simp only []
    by_cases hS : data.len < m.SignatureLength + 2
    · simp only [hS, if_true]
    simp only [hS, if_false, pure, Except.pure]
    rw [slice_eq_ok data 2 (m.SignatureLength + 2) (by omega) (by omega)]
    simp only []
    by_cases hO : m.SignatureLength + 2 + m.PublicKeyLength ≤ data.mem.length
    swap
    · rw [slice_eq_panic data _ _ (by omega)]
      simp only [hO, if_false]
    rw [slice_eq_ok data _ _ (by omega) hO]
    simp only [hO, if_true]
    cases getTarget data (2 + (m.SignatureLength + 2 + m.PublicKeyLength)) with
    | error f => rfl
    | ok tp =>
      obtain ⟨target, pos1⟩ := tp
      simp only []
      cases getAnchor data pos1 with
      | error f => rfl
      | ok ap =>
        obtain ⟨anchor, pos2⟩ := ap
        simp only []
        cases decodeTags um data pos2 with
        | error f => rfl
        | ok gp =>
          obtain ⟨tags, c⟩ := gp
          rfl

/-! ## Successful runs of the readers -/

theorem getTarget_ok_inv (data : GoSlice) (i j : Nat) (tg : GoString)
    (h : getTarget data i = .ok (tg, j)) :
    i < data.len ∧
      ((data.mem.getD i 0 ≠ 1 ∧ tg = [] ∧ j = i) ∨
        (data.mem.getD i 0 = 1 ∧ i + 33 ≤ data.mem.length ∧
          tg = EncodeToString (itemBytes data (i + 1) (i + 33)) ∧ j = i + 32)) := by
  rw [getTarget_eq] at h
  by_cases h1 : i < data.len
  swap
  · simp only [h1, if_false] at h
    cases h
  refine ⟨h1, ?_⟩
  simp only [h1, if_true] at h
  by_cases hf : data.mem.getD i 0 = 1
  · simp only [hf, if_true] at h
    by_cases hb : i + 33 ≤ data.mem.length
    · simp only [hb, if_true, Except.ok.injEq, Prod.mk.injEq] at h
      exact Or.inr ⟨hf, hb, h.1.symm, h.2.symm⟩
    · simp only [hb, if_false] at h
      cases h
  · simp only [hf, if_false, Except.ok.injEq, Prod.mk.injEq] at h
    exact Or.inl ⟨hf, h.1.symm, h.2.symm⟩

theorem getAnchor_eq_getTarget (data : GoSlice) (i : Nat) :
    getAnchor data i = getTarget data i := by
  rw [getAnchor_eq, getTarget_eq]

theorem decodeTags_ok_inv (um : List Nat → Except AvroError (List AvroRecord))
    (data : GoSlice) (i c : Nat) (tags : List Tag)
    (h : decodeTags um data i = .ok (tags, c)) :
    i + 8 ≤ data.mem.length ∧
      ((uint16At data i = 0 ∧ tags = [] ∧ c = i + 8) ∨
        (0 < uint16At data i ∧ c = i + 16 + uint16At data (i + 8) ∧ c ≤ data.mem.length ∧
          ∃ records, um (tagPayload data i) = .ok records ∧
            tags = records.map tagOfRecord)) := by
  rw [decodeTags_eq] at h
  by_cases h8 : i + 8 ≤ data.mem.length
  swap
  · simp only [h8, if_false] at h
    cases h
  refine ⟨h8, ?_⟩
  simp only [h8, if_true] at h
  by_cases hc : 0 < uint16At data i
  swap
  · simp only [hc, if_false, Except.ok.injEq, Prod.mk.injEq] at h
    exact Or.inl ⟨by omega, h.1.symm, h.2.symm⟩
  simp only [hc, if_true] at h
  by_cases hL : i + 16 + uint16At data (i + 8) ≤ data.mem.length
  swap
  · simp only [hL, if_false] at h
    cases h
  simp only [hL, if_true] at h
  cases hu : um (tagPayload data i) with
  | error e =>
    rw [hu] at h
    cases h
  | ok records =>
    rw [hu] at h
    simp only [Except.ok.injEq, Prod.mk.injEq] at h
    exact Or.inr ⟨hc, h.2.symm, by omega, records, rfl, h.1.symm⟩

/-- A successful run of `DecodeDataItem`, step by step. -/
theorem DecodeDataItem_ok_inv (cfg : Nat → Option SignatureMeta)
    (um : List Nat → Except AvroError (List AvroRecord)) (data : GoSlice) (d : DataItem)
    (h : DecodeDataItem cfg um data = .ok d) :
    ∃ m pos1 pos2 c,
      2 ≤ data.len ∧ cfg (uint16At data 0) = some m ∧
      m.SignatureLength + 2 ≤ data.len ∧
      m.SignatureLength + 2 + m.PublicKeyLength ≤ data.mem.length ∧
      getTarget data (2 + (m.SignatureLength + 2 + m.PublicKeyLength)) =
        .ok (d.Target, pos1) ∧
      getAnchor data pos1 = .ok (d.Anchor, pos2) ∧
      decodeTags um data pos2 = .ok (d.Tags, c) ∧
      c ≤ data.len ∧
      payloadCursor cfg um data = .ok c ∧
      d.SignatureType = uint16At data 0 ∧
      d.Signature = EncodeToString (itemBytes data 2 (m.SignatureLength + 2)) ∧
      d.Owner = EncodeToString (itemBytes data (m.SignatureLength + 2)
        (m.SignatureLength + 2 + m.PublicKeyLength)) ∧
      d.RawData = EncodeToString (itemBytes data c data.len) := by
  have hp := payloadCursor_eq cfg um data
  rw [DecodeDataItem_eq] at h
  by_cases hN : data.len < 2
  · simp only [hN, if_true] at h
    cases h
  simp only [hN, if_false] at h hp
  cases hm : cfg (uint16At data 0) with
  | none =>
    rw [hm] at h
    cases h
  | some m =>
    rw [hm] at h hp
    simp only [] at h hp
    by_cases hS : data.len < m.SignatureLength + 2
    · simp only [hS, if_true] at h
      cases h
    simp only [hS, if_false] at h hp
    by_cases hO : m.SignatureLength + 2 + m.PublicKeyLength ≤ data.mem.length
    swap
    · simp only [hO, if_false] at h
      cases h
    simp only [hO, if_true] at h hp
    cases ht : getTarget data (2 + (m.SignatureLength + 2 + m.PublicKeyLength)) with
    | error f =>
      rw [ht] at h
      cases h
    | ok tp =>
      obtain ⟨target, pos1⟩ := tp
      rw [ht] at h hp
      simp only [] at h hp
      cases ha : getAnchor data pos1 with
      | error f =>
        rw [ha] at h
        cases h
      | ok ap =>
        obtain ⟨anchor, pos2⟩ := ap
        rw [ha] at h hp
        simp only [] at h hp
        cases hg : decodeTags um data pos2 with
        | error f =>
          rw [hg] at h
          cases h
        | ok gp =>
          obtain ⟨tags, c⟩ := gp
          rw [hg] at h hp
          simp only [] at h hp
          by_cases hcl : c ≤ data.len
          swap
          · simp only [hcl, if_false] at h
            cases h
          simp only [hcl, if_true, Except.ok.injEq] at h
          subst h
          exact ⟨m, pos1, pos2, c, by omega, rfl, by omega, hO, ht, ha, hg, hcl, hp,
            rfl, rfl, rfl, rfl⟩

/-- The steps of a successful run give the result of `DecodeDataItem`. -/
theorem DecodeDataItem_ok_of (cfg : Nat → Option SignatureMeta)
    (um : List Nat → Except AvroError (List AvroRecord)) (data : GoSlice)
    (m : SignatureMeta) (pos1 pos2 c : Nat) (target anchor : GoString) (tags : List Tag)
    (h2 : 2 ≤ data.len) (hm : cfg (uint16At data 0) = some m)
    (hS : m.SignatureLength + 2 ≤ data.len)
    (hO : m.SignatureLength + 2 + m.PublicKeyLength ≤ data.mem.length)
    (ht : getTarget data (2 + (m.SignatureLength + 2 + m.PublicKeyLength)) =
      .ok (target, pos1))
    (ha : getAnchor data pos1 = .ok (anchor, pos2))
    (hg : decodeTags um data pos2 = .ok (tags, c)) (hc : c ≤ data.len) :
    DecodeDataItem cfg um data =
      .ok
        { SignatureType := uint16At data 0
          Signature := EncodeToString (itemBytes data 2 (m.SignatureLength + 2))
          Owner := EncodeToString (itemBytes data (m.SignatureLength + 2)
            (m.SignatureLength + 2 + m.PublicKeyLength))
          Target := target
          Anchor := anchor
          Tags := tags
          RawData := EncodeToString (itemBytes data c data.len) } := by
  rw [DecodeDataItem_eq]
  simp only [Nat.not_lt.mpr h2, if_false, hm, Nat.not_lt.mpr hS, hO, if_true, ht, ha, hg, hc]

/-! ## The fields before the payload depend on the bytes before the cursor only -/

theorem agree_getD (a b : List Nat) (c j : Nat) (h : a.take c = b.take c) (hj : j < c) :
    a.getD j 0 = b.getD j 0 := by
  have ha : (a.take c)[j]? = a[j]? := List.getElem?_take_of_lt hj
  have hb : (b.take c)[j]? = b[j]? := List.getElem?_take_of_lt hj
  rw [List.getD_eq_getElem?_getD, List.getD_eq_getElem?_getD, ← ha, ← hb, h]

theorem agree_itemBytes (d t : GoSlice) (c lo hi : Nat)
    (h : t.mem.take c = d.mem.take c) (hhi : hi ≤ c) :
    itemBytes t lo hi = itemBytes d lo hi := by
  have e : ∀ l : List Nat, l.take hi = (l.take c).take hi := by
    intro l
    rw [List.take_take, min_eq_left hhi]
  unfold itemBytes
  rw [← List.drop_take, ← List.drop_take, e t.mem, e d.mem, h]

theorem agree_uint16At (d t : GoSlice) (c i : Nat)
    (h : t.mem.take c = d.mem.take c) (hi : i + 2 ≤ c) :
    uint16At t i = uint16At d i := by
  simp only [uint16At, agree_getD _ _ c i h (by omega), agree_getD _ _ c (i + 1) h (by omega)]

theorem tagPayload_eq_itemBytes (data : GoSlice) (i : Nat) :
    tagPayload data i = itemBytes data (i + 16) (i + 16 + uint16At data (i + 8)) := by
  simp only [tagPayload, itemBytes, Nat.add_sub_cancel_left]

theorem getTarget_agree (d t : GoSlice) (c i j : Nat) (tg : GoString)
    (h : getTarget d i = .ok (tg, j)) (hag : t.mem.take c = d.mem.take c)
    (hjc : j + 1 ≤ c) (hct : c ≤ t.len) :
    getTarget t i = .ok (tg, j) := by
  have htc := t.len_le
  obtain ⟨h1, h2⟩ := getTarget_ok_inv d i j tg h
  rw [getTarget_eq]
  rcases h2 with ⟨hf, htg, hj⟩ | ⟨hf, hb, htg, hj⟩
  · have hil : i < t.len := by omega
    have hfl : t.mem.getD i 0 ≠ 1 := by rw [agree_getD _ _ c i hag (by omega)]; exact hf
    simp only [hil, if_true, hfl, if_false, htg, hj]
  · have hil : i < t.len := by omega
    have hfl : t.mem.getD i 0 = 1 := by rw [agree_getD _ _ c i hag (by omega)]; exact hf
    have hbl : i + 33 ≤ t.mem.length := by omega
    simp only [hil, if_true, hfl, hbl, htg, hj,
      agree_itemBytes d t c (i + 1) (i + 33) hag (by omega)]

theorem decodeTags_agree (um : List Nat → Except AvroError (List AvroRecord))
    (d t : GoSlice) (c i c1 : Nat) (tags : List Tag)
    (h : decodeTags um d i = .ok (tags, c1)) (hag : t.mem.take c = d.mem.take c)
    (hc1 : c1 ≤ c) (hct : c ≤ t.len) :
    decodeTags um t i = .ok (tags, c1) := by
  have htc := t.len_le
  obtain ⟨h8, h2⟩ := decodeTags_ok_inv um d i c1 tags h
  rw [decodeTags_eq]
  rcases h2 with ⟨h0, htags, hc⟩ | ⟨hpos, hc, hb, records, hu, htags⟩
  · have e0 : uint16At t i = 0 := by rw [agree_uint16At d t c i hag (by omega)]; exact h0
    have h8t : i + 8 ≤ t.mem.length := by omega
    simp only [h8t, if_true, e0, Nat.lt_irrefl, if_false, htags, hc]
  · have e0 : uint16At t i = uint16At d i := agree_uint16At d t c i hag (by omega)
    have e8 : uint16At t (i + 8) = uint16At d (i + 8) :=
      agree_uint16At d t c (i + 8) hag (by omega)
    have ep : tagPayload t i = tagPayload d i := by
      rw [tagPayload_eq_itemBytes, tagPayload_eq_itemBytes, e8]
      exact agree_itemBytes d t c _ _ hag (by omega)
    have h8t : i + 8 ≤ t.mem.length := by omega
    have hLt : i + 16 + uint16At d (i + 8) ≤ t.mem.length := by omega
    simp only [h8t, if_true, e0, hpos, e8, hLt, ep, hu, htags, hc]

/-- A buffer that agrees with `data` on the bytes before the payload cursor `c` of a
successful decode, and is at least `c` long, decodes to the same fields; its payload is
what it holds from `c` on. -/
theorem DecodeDataItem_same_before_cursor (cfg : Nat → Option SignatureMeta)
    (um : List Nat → Except AvroError (List AvroRecord)) (data t : GoSlice) (d : DataItem)
    (c : Nat) (hd : DecodeDataItem cfg um data = .ok d)
    (hcur : payloadCursor cfg um data = .ok c) (hct : c ≤ t.len)
    (hag : t.mem.take c = data.mem.take c) :
    DecodeDataItem cfg um t =
      .ok { d with RawData := EncodeToString (itemBytes t c t.len) } := by
  have htc := t.len_le
  obtain ⟨m, pos1, pos2, c2, h2, hm, hS, hO, ht, ha, hg, hcl, hp, e1, e2, e3, e4⟩ :=
    DecodeDataItem_ok_inv cfg um data d hd
  have hcc : c2 = c := by
    rw [hp] at hcur
    exact Except.ok.inj hcur
  subst hcc
  obtain ⟨ht1, ht2⟩ := getTarget_ok_inv data _ pos1 d.Target ht
  rw [getAnchor_eq_getTarget] at ha
  obtain ⟨ha1, ha2⟩ := getTarget_ok_inv data _ pos2 d.Anchor ha
  obtain ⟨hg1, hg2⟩ := decodeTags_ok_inv um data pos2 c2 d.Tags hg
  have hpos1 : 2 + (m.SignatureLength + 2 + m.PublicKeyLength) ≤ pos1 := by
    rcases ht2 with ⟨_, _, hj⟩ | ⟨_, _, _, hj⟩ <;> omega
  have hpos2 : pos1 ≤ pos2 := by
    rcases ha2 with ⟨_, _, hj⟩ | ⟨_, _, _, hj⟩ <;> omega
  have hpos3 : pos2 + 8 ≤ c2 := by
    rcases hg2 with ⟨_, _, hj⟩ | ⟨_, hj, _, _⟩ <;> omega
  have hu : uint16At t 0 = uint16At data 0 := agree_uint16At data t c2 0 hag (by omega)
  have key := DecodeDataItem_ok_of cfg um t m pos1 pos2 c2 d.Target d.Anchor d.Tags
    (by omega) (by rw [hu]; exact hm) (by omega) (by omega)
    (getTarget_agree data t c2 _ pos1 d.Target ht hag (by omega) hct)
    (by
      rw [getAnchor_eq_getTarget]
      exact getTarget_agree data t c2 _ pos2 d.Anchor ha hag (by omega) hct)
    (decodeTags_agree um data t c2 pos2 c2 d.Tags hg hag (le_refl _) hct) hct
  rw [key, hu, agree_itemBytes data t c2 2 _ hag (by omega),
    agree_itemBytes data t c2 _ (m.SignatureLength + 2 + m.PublicKeyLength) hag (by omega),
    ← e1, ← e2, ← e3]

theorem itemBytes_length (data : GoSlice) (lo hi : Nat) (h1 : lo ≤ hi)
    (h2 : hi ≤ data.mem.length) : (itemBytes data lo hi).length = hi - lo := by
  simp only [itemBytes, List.length_take, List.length_drop]
  omega

theorem EncodeToString_ne_nil (bs : List Nat) (h : bs ≠ []) : EncodeToString bs ≠ [] := by
  cases bs with
  | nil => exact absurd rfl h
  | cons a t =>
    cases t with
    | nil => simp [EncodeToString]
    | cons b t2 =>
      cases t2 with
      | nil => simp [EncodeToString]
      | cons c rest => simp [EncodeToString]

/-! ## The data item decoder: truncated payload, header fields, rejected buffers -/

/-- Claim C11. Let `DecodeDataItem` succeed on `data` with result `d`, and let `c` be
the final cursor (the `position` at which the payload starts).  Then
`RawData = base64url(data[c:])`, and for every `k` with `c ≤ k ≤ len(data)` the call
`DecodeDataItem(data[:k])` succeeds too and returns the same `SignatureType`,
`Signature`, `Owner`, `Target`, `Anchor` and `Tags`, with
`RawData = base64url(data[c:k])`. -/
theorem DecodeDataItem_payload_truncation (cfg : Nat → Option SignatureMeta)
    (um : List Nat → Except AvroError (List AvroRecord)) (data : GoSlice) (d : DataItem)
    (c k : Nat) (hd : DecodeDataItem cfg um data = .ok d)
    (hcur : payloadCursor cfg um data = .ok c) (hck : c ≤ k) (hk : k ≤ data.len) :
    d.RawData = EncodeToString (itemBytes data c data.len) ∧
    DecodeDataItemAt cfg um data 0 k =
      .ok { d with RawData := EncodeToString (itemBytes data c k) } := by
  have hc := data.len_le
  obtain ⟨m, pos1, pos2, c2, _, _, _, _, _, _, _, _, hp, _, _, _, e4⟩ :=
    DecodeDataItem_ok_inv cfg um data d hd
  have hcc : c2 = c := by
    rw [hp] at hcur
    exact Except.ok.inj hcur
  subst hcc
  refine ⟨e4, ?_⟩
  simp only [DecodeDataItemAt, slice_eq_ok data 0 k (Nat.zero_le _) (by omega)]
  rw [DecodeDataItem_same_before_cursor cfg um data _ d c2 hd hcur (by simpa using hck)
    (by simp only [List.drop_zero])]
  simp only [itemBytes, List.drop_zero, Nat.sub_zero]

/-- The item `sampleItem [5, 6, 7]` has its payload cursor at 108; cut after 109 bytes
it decodes to the same fields with the payload `[5]` (an instance of C11). -/
theorem DecodeDataItem_payload_truncation_witness :
    (sampleDataItem [5, 6, 7]).RawData =
      EncodeToString (itemBytes (GoSlice.ofBytes (sampleItem [5, 6, 7])) 108 111) ∧
    DecodeDataItemAt sampleSignatureConfig avroUnmarshal
        (GoSlice.ofBytes (sampleItem [5, 6, 7])) 0 109 =
      .ok { sampleDataItem [5, 6, 7] with
        RawData := EncodeToString (itemBytes (GoSlice.ofBytes (sampleItem [5, 6, 7])) 108 109) } :=
  DecodeDataItem_payload_truncation sampleSignatureConfig avroUnmarshal
    (GoSlice.ofBytes (sampleItem [5, 6, 7])) (sampleDataItem [5, 6, 7]) 108 109
    (by decide) (by decide) (by decide) (by decide)

/-- The same for the first `k` bytes taken as a buffer of their own (capacity `k`). -/
theorem DecodeDataItem_truncated_copy (cfg : Nat → Option SignatureMeta)
    (um : List Nat → Except AvroError (List AvroRecord)) (data : GoSlice) (d : DataItem)
    (c k : Nat) (hd : DecodeDataItem cfg um data = .ok d)
    (hcur : payloadCursor cfg um data = .ok c) (hck : c ≤ k) (hk : k ≤ data.len) :
    DecodeDataItem cfg um (GoSlice.ofBytes (data.bytes.take k)) =
      .ok { d with RawData := EncodeToString (itemBytes data c k) } := by
  have hc := data.len_le
  have hlen : (GoSlice.ofBytes (data.bytes.take k)).len = k := by
    simp only [GoSlice.ofBytes, GoSlice.bytes, List.length_take]
    omega
  have hmem : (GoSlice.ofBytes (data.bytes.take k)).mem = data.mem.take k := by
    simp only [GoSlice.ofBytes, GoSlice.bytes, List.take_take, min_eq_left hk]
  rw [DecodeDataItem_same_before_cursor cfg um data _ d c hd hcur (by omega)
    (by rw [hmem, List.take_take, min_eq_left hck])]
  simp only [itemBytes, hlen, hmem, List.drop_take, List.take_take, min_self]

/-- Claim C13. Let `DecodeDataItem` succeed on `data` with result `d`, and let `(s, p)`
be the registered lengths of the code `data[0] + 256 * data[1]`.  Then `SignatureType`
is that code, `Signature` is the encoding of exactly the `s` bytes `data[2 : 2+s]`,
`Owner` is the encoding of exactly the `p` bytes `data[2+s : 2+s+p]`, and
`len(data) ≥ 2 + s + p`. -/
theorem DecodeDataItem_signature_and_owner (cfg : Nat → Option SignatureMeta)
    (um : List Nat → Except AvroError (List AvroRecord)) (data : GoSlice) (d : DataItem)
    (s p : Nat) (hd : DecodeDataItem cfg um data = .ok d)
    (hreg : cfg (uint16At data 0) = some { SignatureLength := s, PublicKeyLength := p }) :
    d.SignatureType = uint16At data 0 ∧
    d.Signature = EncodeToString (itemBytes data 2 (2 + s)) ∧
    (itemBytes data 2 (2 + s)).length = s ∧
    d.Owner = EncodeToString (itemBytes data (2 + s) (2 + s + p)) ∧
    (itemBytes data (2 + s) (2 + s + p)).length = p ∧
    2 + s + p ≤ data.len := by
  have hc := data.len_le
  obtain ⟨m, pos1, pos2, c, _, hm, hS, hO, ht, _, _, _, _, e1, e2, e3, _⟩ :=
    DecodeDataItem_ok_inv cfg um data d hd
  rw [hreg] at hm
  have hm2 := Option.some.inj hm
  subst hm2
  simp only [] at hS hO ht e2 e3
  obtain ⟨ht1, _⟩ := getTarget_ok_inv data _ pos1 d.Target ht
  have a1 : s + 2 = 2 + s := Nat.add_comm s 2
  rw [a1] at e2 e3
  refine ⟨e1, e2, ?_, e3, ?_, by omega⟩
  · rw [itemBytes_length data 2 (2 + s) (by omega) (by omega)]
    omega
  · rw [itemBytes_length data (2 + s) (2 + s + p) (by omega) (by omega)]
    omega

/-- On `sampleItem [5, 6]`, with the lengths (64, 32) of code 2 (an instance of
C13). -/
theorem DecodeDataItem_signature_and_owner_witness :
    (sampleDataItem [5, 6]).SignatureType = uint16At (GoSlice.ofBytes (sampleItem [5, 6])) 0 ∧
    (sampleDataItem [5, 6]).Signature =
      EncodeToString (itemBytes (GoSlice.ofBytes (sampleItem [5, 6])) 2 (2 + 64)) ∧
    (itemBytes (GoSlice.ofBytes (sampleItem [5, 6])) 2 (2 + 64)).length = 64 ∧
    (sampleDataItem [5, 6]).Owner =
      EncodeToString (itemBytes (GoSlice.ofBytes (sampleItem [5, 6])) (2 + 64) (2 + 64 + 32)) ∧
    (itemBytes (GoSlice.ofBytes (sampleItem [5, 6])) (2 + 64) (2 + 64 + 32)).length = 32 ∧
    2 + 64 + 32 ≤ (GoSlice.ofBytes (sampleItem [5, 6])).len :=
  DecodeDataItem_signature_and_owner sampleSignatureConfig avroUnmarshal
    (GoSlice.ofBytes (sampleItem [5, 6])) (sampleDataItem [5, 6]) 64 32
    (by decide) (by decide)

/-- Claim C14. For every buffer of at least 2 bytes whose code
`data[0] + 256 * data[1]` has no entry in the registry, whatever its other bytes and its
length, `DecodeDataItem` fails with the unsupported-signature-type error and returns no
data item. -/
theorem DecodeDataItem_unregistered_code (cfg : Nat → Option SignatureMeta)
    (um : List Nat → Except AvroError (List AvroRecord)) (data : GoSlice)
    (h2 : 2 ≤ data.len) (hreg : cfg (uint16At data 0) = none) :
    DecodeDataItem cfg um data =
      .error (.err (.unsupportedSignatureType (uint16At data 0))) := by
  rw [DecodeDataItem_eq]
  simp only [Nat.not_lt.mpr h2, if_false, hreg]

/-- The two bytes `9, 0`: code 9 is not in the sample registry (an instance of C14). -/
theorem DecodeDataItem_unregistered_code_witness :
    DecodeDataItem sampleSignatureConfig avroUnmarshal (GoSlice.ofBytes [9, 0]) =
      .error (.err (.unsupportedSignatureType 9)) :=
  DecodeDataItem_unregistered_code sampleSignatureConfig avroUnmarshal
    (GoSlice.ofBytes [9, 0]) (by decide) (by decide)

/-- Claim C16. For every buffer shorter than 2 bytes, the empty one included,
`DecodeDataItem` fails with the buffer-too-small error and returns no data item,
whatever the signature registry is (it is not consulted). -/
theorem DecodeDataItem_under_two_bytes (cfg : Nat → Option SignatureMeta)
    (um : List Nat → Except AvroError (List AvroRecord)) (data : GoSlice)
    (h : data.len < 2) :
    DecodeDataItem cfg um data = .error (.err .binaryTooSmall) := by
  simp only [DecodeDataItem, h, if_true]

/-- The empty buffer and a one-byte buffer, under a registry that knows every code (an
instance of C16). -/
theorem DecodeDataItem_under_two_bytes_witness :
    DecodeDataItem (fun _ => some { SignatureLength := 0, PublicKeyLength := 0 })
        avroUnmarshal (GoSlice.ofBytes []) = .error (.err .binaryTooSmall) ∧
    DecodeDataItem sampleSignatureConfig avroUnmarshal (GoSlice.ofBytes [2]) =
      .error (.err .binaryTooSmall) :=
  ⟨DecodeDataItem_under_two_bytes _ avroUnmarshal (GoSlice.ofBytes []) (by decide),
    DecodeDataItem_under_two_bytes sampleSignatureConfig avroUnmarshal (GoSlice.ofBytes [2])
      (by decide)⟩

/-- Claim C20. For every buffer on which `DecodeDataItem` succeeds: if the returned
`Target` is absent (the empty string), the returned `Anchor` is absent too.  `getTarget`
hands back its start position when the flag byte is not 1, so `getAnchor` tests the
same byte. -/
theorem DecodeDataItem_no_anchor_without_target (cfg : Nat → Option SignatureMeta)
    (um : List Nat → Except AvroError (List AvroRecord)) (data : GoSlice) (d : DataItem)
    (hd : DecodeDataItem cfg um data = .ok d) (htarget : d.Target = []) :
    d.Anchor = [] := by
  obtain ⟨m, pos1, pos2, c, _, _, _, _, ht, ha, _, _, _, _, _, _, _⟩ :=
    DecodeDataItem_ok_inv cfg um data d hd
  obtain ⟨_, ht2⟩ := getTarget_ok_inv data _ pos1 d.Target ht
  rcases ht2 with ⟨hf, _, hj⟩ | ⟨_, hb, htg, _⟩
  · rw [getAnchor_eq_getTarget, hj] at ha
    obtain ⟨_, ha2⟩ := getTarget_ok_inv data _ pos2 d.Anchor ha
    rcases ha2 with ⟨_, han, _⟩ | ⟨hf2, _, _, _⟩
    · exact han
    · exact absurd hf2 hf
  · exfalso
    rw [htarget] at htg
    refine EncodeToString_ne_nil _ ?_ htg.symm
    intro hnil
    have hl := itemBytes_length data
      (2 + (m.SignatureLength + 2 + m.PublicKeyLength) + 1)
      (2 + (m.SignatureLength + 2 + m.PublicKeyLength) + 33) (by omega) hb
    rw [hnil] at hl
    simp only [List.length_nil] at hl
    omega

/-- On `sampleItem []` the target is absent, and so is the anchor (an instance of
C20). -/
theorem DecodeDataItem_no_anchor_without_target_witness :
    (sampleDataItem []).Anchor = [] :=
  DecodeDataItem_no_anchor_without_target sampleSignatureConfig avroUnmarshal
    (GoSlice.ofBytes (sampleItem [])) (sampleDataItem []) (by decide) (by decide)

/-! ## The tag field with a non-zero count -/

/-- Claim C18. Where the declared tag count at `startAt` is greater than zero and the
region `data[startAt+16 : startAt+16+L]` (`L` the 16-bit value at `startAt + 8`) lies
inside the buffer: if the schema decode of that region yields the records
`r_1, ..., r_m`, `decodeTags` returns the `m` tags `(r_i.name, r_i.value)` in the order
of the records, and the cursor `startAt + 16 + L`; if the schema decode fails,
`decodeTags` returns that error. -/
theorem decodeTags_follows_schema_decode
    (um : List Nat → Except AvroError (List AvroRecord)) (data : GoSlice) (startAt : Nat)
    (hcount : 0 < uint16At data startAt)
    (hin : startAt + 16 + uint16At data (startAt + 8) ≤ data.len) :
    decodeTags um data startAt =
      match um (tagPayload data startAt) with
      | .ok records =>
        .ok (records.map tagOfRecord, startAt + 16 + uint16At data (startAt + 8))
      | .error e => .error (.err (.avro e)) := by
  have hc := data.len_le
  rw [decodeTags_eq]
  have h8 : startAt + 8 ≤ data.mem.length := by omega
  have hL : startAt + 16 + uint16At data (startAt + 8) ≤ data.mem.length := by omega
  simp only [h8, if_true, hcount, hL]
  cases um (tagPayload data startAt) <;> rfl

/-- The field `sampleTagField` gives its two records as tags, in order, and the cursor
26; the field `sampleBrokenTagField`, whose record has a negative length, gives the
error of the schema decode (instances of C18). -/
theorem decodeTags_follows_schema_decode_witness :
    decodeTags avroUnmarshal (GoSlice.ofBytes sampleTagField) 0 =
      .ok ([{ Name := [97], Value := [98] }, { Name := [99], Value := [100] }], 26) ∧
    decodeTags avroUnmarshal (GoSlice.ofBytes sampleBrokenTagField) 0 =
      .error (.err (.avro .negativeLength)) :=
  ⟨decodeTags_follows_schema_decode avroUnmarshal (GoSlice.ofBytes sampleTagField) 0
      (by decide) (by decide),
    decodeTags_follows_schema_decode avroUnmarshal (GoSlice.ofBytes sampleBrokenTagField) 0
      (by decide) (by decide)⟩

/-! ## The bundle decoder: no items, short buffers -/

/-- Claim C15. For every buffer of at least 32 bytes with `data[0] = data[1] = 0`
(declared count 0), `DecodeBundle` succeeds and returns a bundle with no items and with
`RawData` the encoding of the whole input; nothing after the 32-byte count field is
needed. -/
theorem DecodeBundle_no_items (cfg : Nat → Option SignatureMeta)
    (um : List Nat → Except AvroError (List AvroRecord)) (data : GoSlice)
    (hlen : 32 ≤ data.len) (h0 : data.mem.getD 0 0 = 0) (h1 : data.mem.getD 1 0 = 0) :
    DecodeBundle cfg um data =
      .ok { Items := [], RawData := EncodeToString data.bytes } := by
  have hc := data.len_le
  have hN : declaredCount data = 0 := by
    simp only [declaredCount, uint16At, h0, h1]
  have hoff : itemOffset data 0 = 32 := by
    simp only [itemOffset, hN]
  rw [DecodeBundle_eq_loop cfg um data hlen (by omega), hN]
  rfl

/-- A buffer of exactly 32 zero bytes (an instance of C15). -/
theorem DecodeBundle_no_items_witness :
    DecodeBundle sampleSignatureConfig avroUnmarshal
        (GoSlice.ofBytes (List.replicate 32 0)) =
      .ok { Items := [], RawData := EncodeToString (List.replicate 32 0) } :=
  DecodeBundle_no_items sampleSignatureConfig avroUnmarshal
    (GoSlice.ofBytes (List.replicate 32 0)) (by decide) (by decide) (by decide)

/-- Claim C17. For every buffer shorter than 32 bytes, the empty one included,
`DecodeBundle` fails with the buffer-too-small error and returns no bundle. -/
theorem DecodeBundle_under_32_bytes (cfg : Nat → Option SignatureMeta)
    (um : List Nat → Except AvroError (List AvroRecord)) (data : GoSlice)
    (h : data.len < 32) :
    DecodeBundle cfg um data = .error (.err .bundleTooSmall) := by
  simp only [DecodeBundle, h, if_true]

/-- The empty buffer and a buffer of 31 bytes (instances of C17). -/
theorem DecodeBundle_under_32_bytes_witness :
    DecodeBundle sampleSignatureConfig avroUnmarshal (GoSlice.ofBytes []) =
      .error (.err .bundleTooSmall) ∧
    DecodeBundle sampleSignatureConfig avroUnmarshal
        (GoSlice.ofBytes (List.replicate 31 0)) = .error (.err .bundleTooSmall) :=
  ⟨DecodeBundle_under_32_bytes sampleSignatureConfig avroUnmarshal (GoSlice.ofBytes [])
      (by decide),
    DecodeBundle_under_32_bytes sampleSignatureConfig avroUnmarshal
      (GoSlice.ofBytes (List.replicate 31 0)) (by decide)⟩

/-! ## The minimal item -/

theorem getD_replicate_zero (n k : Nat) : (List.replicate n 0).getD k 0 = 0 := by
  rw [List.getD_eq_getElem?_getD, List.getElem?_replicate]
  split <;> rfl

theorem getD_append_zeros (pre : List Nat) (n j : Nat) (h : pre.length ≤ j) :
    (pre ++ List.replicate n 0).getD j 0 = 0 := by
  rw [List.getD_append_right _ _ _ _ h, getD_replicate_zero]

/-- Every slice is the slice of its own bytes over a longer backing array. -/
theorem GoSlice_eq_extend (s : GoSlice) :
    s = (GoSlice.ofBytes s.bytes).extend (s.mem.drop s.len) := by
  have hc := s.len_le
  obtain ⟨mem, len, hle⟩ := s
  simp only [GoSlice.ofBytes, GoSlice.extend, GoSlice.bytes, GoSlice.mk.injEq,
    List.take_append_drop, List.length_take, true_and]
  exact (min_eq_left hle).symm

/-- What `DecodeDataItem` returns on the bytes of a slice taken on their own, it returns
on the slice, unless that is a panic. -/
theorem DecodeDataItem_of_bytes (cfg : Nat → Option SignatureMeta)
    (um : List Nat → Except AvroError (List AvroRecord)) (s : GoSlice)
    (r : Except Fault DataItem)
    (h : DecodeDataItem cfg um (GoSlice.ofBytes s.bytes) = r)
    (hnp : ∀ p, r ≠ .error (.panic p)) :
    DecodeDataItem cfg um s = r := by
  rw [GoSlice_eq_extend s]
  rcases DecodeDataItem_extend cfg um (GoSlice.ofBytes s.bytes) (s.mem.drop s.len)
    with h1 | ⟨p, h1⟩
  · rw [h1, h]
  · rw [h] at h1
    exact absurd h1 (hnp p)

/-- Claim C12. For every code registered with lengths `(s, p)`, every `s` signature
bytes and every `p` owner bytes, the minimal item buffer
`[2-byte code][signature][owner][0][0][tag count 0][tag payload length 0]` is decoded
successfully by `DecodeDataItem`, with `Target` and `Anchor` absent (empty) and an
empty tag list.  (The `RawData` is stated as the code returns it.) -/
theorem DecodeDataItem_minimal_item (cfg : Nat → Option SignatureMeta)
    (um : List Nat → Except AvroError (List AvroRecord)) (data : GoSlice)
    (c0 c1 s p : Nat) (sig owner : List Nat)
    (hreg : cfg (c0 + 256 * c1) = some { SignatureLength := s, PublicKeyLength := p })
    (hs : sig.length = s) (hp : owner.length = p)
    (hdata : data.bytes =
      [c0, c1] ++ sig ++ owner ++ [0] ++ [0] ++ List.replicate 8 0 ++ List.replicate 8 0) :
    DecodeDataItem cfg um data =
      .ok
        { SignatureType := c0 + 256 * c1
          Signature := EncodeToString sig
          Owner := EncodeToString owner
          Target := []
          Anchor := []
          Tags := []
          RawData := EncodeToString (List.replicate 8 0) } := by
  apply DecodeDataItem_of_bytes
  swap
  · intro q hq
    cases hq
  rw [hdata]
  generalize hD : GoSlice.ofBytes ([c0, c1] ++ sig ++ owner ++ [0] ++ [0] ++
    List.replicate 8 0 ++ List.replicate 8 0) = D
  have hmem : D.mem = [c0, c1] ++ sig ++ owner ++ [0] ++ [0] ++
      List.replicate 8 0 ++ List.replicate 8 0 := by
    rw [← hD]
    rfl
  have hA : D.mem = c0 :: c1 :: (sig ++ (owner ++ List.replicate 18 0)) := by
    rw [hmem]
    simp [List.append_assoc, List.replicate]
  have hB : D.mem = (c0 :: c1 :: sig) ++ (owner ++ List.replicate 18 0) := by
    rw [hA]
    simp
  have hC : D.mem = (c0 :: c1 :: (sig ++ owner)) ++ List.replicate 18 0 := by
    rw [hA]
    simp
  have hE : D.mem = (c0 :: c1 :: (sig ++ owner) ++ List.replicate 10 0) ++
      List.replicate 8 0 := by
    rw [hmem]
    simp [List.append_assoc, List.replicate]
  have hcap : D.mem.length = 20 + s + p := by
    rw [hA]
    simp only [List.length_cons, List.length_append, List.length_replicate, hs, hp]
    omega
  have hlen : D.len = 20 + s + p := by
    rw [← hcap, ← hD]
    rfl
  have hz : ∀ j, 2 + s + p ≤ j → D.mem.getD j 0 = 0 := by
    intro j hj
    rw [hC]
    apply getD_append_zeros
    simp only [List.length_cons, List.length_append, hs, hp]
    omega
  have hu : uint16At D 0 = c0 + 256 * c1 := by
    simp only [uint16At, hA]
    rfl
  have hflag : D.mem.getD (2 + (s + 2 + p)) 0 ≠ 1 := by
    rw [hz _ (by omega)]
    decide
  have ht : getTarget D (2 + (s + 2 + p)) = .ok ([], 2 + (s + 2 + p)) := by
    rw [getTarget_eq]
    have h1 : 2 + (s + 2 + p) < D.len := by omega
    simp only [h1, if_true, hflag, if_false]
  have hg : decodeTags um D (2 + (s + 2 + p)) = .ok ([], 2 + (s + 2 + p) + 8) := by
    rw [decodeTags_eq]
    have h1 : 2 + (s + 2 + p) + 8 ≤ D.mem.length := by omega
    have h2 : uint16At D (2 + (s + 2 + p)) = 0 := by
      simp only [uint16At, hz _ (Nat.le_of_lt (by omega : 2 + s + p < 2 + (s + 2 + p))),
        hz (2 + (s + 2 + p) + 1) (by omega)]
    simp only [h1, if_true, h2, Nat.lt_irrefl, if_false]
  have key := DecodeDataItem_ok_of cfg um D { SignatureLength := s, PublicKeyLength := p }
    (2 + (s + 2 + p)) (2 + (s + 2 + p)) (2 + (s + 2 + p) + 8) [] [] []
    (by omega) (by rw [hu]; exact hreg) (by simp only []; omega) (by simp only []; omega)
    ht (by rw [getAnchor_eq_getTarget]; exact ht) hg (by omega)
  rw [key, hu]
  have e1 : itemBytes D 2 (s + 2) = sig := by
    simp only [itemBytes, hA, List.drop_succ_cons, List.drop_zero, Nat.add_sub_cancel]
    exact List.take_left' hs
  have e2 : itemBytes D (s + 2) (s + 2 + p) = owner := by
    simp only [itemBytes, Nat.add_sub_cancel_left]
    rw [hB, List.drop_left' (by simp only [List.length_cons, hs])]
    exact List.take_left' hp
  have e3 : itemBytes D (2 + (s + 2 + p) + 8) D.len = List.replicate 8 0 := by
    simp only [itemBytes]
    rw [hE, List.drop_left' (by
      simp only [List.length_cons, List.length_append, List.length_replicate, hs, hp]
      omega)]
    apply List.take_of_length_le
    simp only [List.length_replicate, hlen]
    omega
  simp only [e1, e2, e3]

/-- The minimal item for code 2 with the lengths (64, 32) (an instance of C12). -/
theorem DecodeDataItem_minimal_item_witness :
    DecodeDataItem sampleSignatureConfig avroUnmarshal (GoSlice.ofBytes sampleMinimalItem) =
      .ok
        { SignatureType := 2 + 256 * 0
          Signature := EncodeToString (List.replicate 64 3)
          Owner := EncodeToString (List.replicate 32 4)
          Target := []
          Anchor := []
          Tags := []
          RawData := EncodeToString (List.replicate 8 0) } :=
  DecodeDataItem_minimal_item sampleSignatureConfig avroUnmarshal
    (GoSlice.ofBytes sampleMinimalItem) 2 0 64 32 (List.replicate 64 3) (List.replicate 32 4)
    (by decide) (by decide) (by decide) (by decide)

/-! ## What the items of a bundle depend on -/

theorem decodeBundleHeaderLoop_panic (data : GoSlice) :
    ∀ (n i : Nat) (acc : List bundleHeader), 0 < n → data.mem.length < i + 64 * n →
      decodeBundleHeaderLoop data n i acc = .error (.panic .sliceBoundsOutOfRange) := by
  intro n
  induction n with
  | zero => intro i acc h; omega
  | succ n ih =>
    intro i acc _ h
    by_cases h64 : i + 64 ≤ data.mem.length
    · have e1 := slice_eq_ok data i (i + 32) (by omega) (by omega)
      have e2 := slice_eq_ok data (i + 32) (i + 64) (by omega) (by omega)
      simp only [decodeBundleHeaderLoop, e1, e2, bind, Except.bind]
      rw [littleEndianUint16_mk _ _ _ (by omega), littleEndianUint16_mk _ _ _ (by omega)]
      simp only []
      exact ih (i + 64) _ (by omega) (by omega)
    · by_cases h32 : i + 32 ≤ data.mem.length
      · have e1 := slice_eq_ok data i (i + 32) (by omega) (by omega)
        have e2 := slice_eq_panic data (i + 32) (i + 64) (by omega)
        simp only [decodeBundleHeaderLoop, e1, e2, bind, Except.bind]
        rw [littleEndianUint16_mk _ _ _ (by omega)]
      · have e1 := slice_eq_panic data i (i + 32) (by omega)
        simp only [decodeBundleHeaderLoop, e1, bind, Except.bind]

/-- A header table that ends beyond the capacity makes `DecodeBundle` panic. -/
theorem DecodeBundle_table_panic (cfg : Nat → Option SignatureMeta)
    (um : List Nat → Except AvroError (List AvroRecord)) (data : GoSlice)
    (hlen : 32 ≤ data.len) (h : data.mem.length < 32 + 64 * declaredCount data) :
    DecodeBundle cfg um data = .error (.panic .sliceBoundsOutOfRange) := by
  have hc := data.len_le
  have e1 := slice_eq_ok data 0 32 (by omega) (by omega)
  simp only [DecodeBundle, Nat.not_lt.mpr hlen, if_false, decodeBundleHeader, e1, bind,
    Except.bind]
  rw [littleEndianUint16_mk _ _ _ (by omega)]
  simp only [List.drop_zero]
  have e2 : data.mem.getD 0 0 + 256 * data.mem.getD 1 0 = declaredCount data := rfl
  rw [e2, decodeBundleHeaderLoop_panic data _ 32 [] (by omega) h]

theorem slice_congr (d1 d2 : GoSlice) (lo hi : Nat) (hcap : d1.mem.length = d2.mem.length)
    (hd : d1.mem.drop lo = d2.mem.drop lo) : d1.slice lo hi = d2.slice lo hi := by
  by_cases h : lo ≤ hi ∧ hi ≤ d1.mem.length
  · rw [slice_eq_ok d1 lo hi h.1 h.2, slice_eq_ok d2 lo hi h.1 (by omega)]
    simp only [hd]
  · rw [slice_eq_panic d1 lo hi h, slice_eq_panic d2 lo hi (by omega)]

theorem drop_congr_of_le (a b : List Nat) (B lo : Nat) (h : a.drop B = b.drop B)
    (hlo : B ≤ lo) : a.drop lo = b.drop lo := by
  have e : lo = B + (lo - B) := by omega
  rw [e, ← List.drop_drop, ← List.drop_drop, h]

/-- The item loop reads the sizes of the headers and the bytes from its start offset
on, nothing else. -/
theorem decodeBundleLoop_congr (cfg : Nat → Option SignatureMeta)
    (um : List Nat → Except AvroError (List AvroRecord)) (d1 d2 : GoSlice)
    (hs1 hs2 : List bundleHeader) (B : Nat) (hcap : d1.mem.length = d2.mem.length)
    (hrest : d1.mem.drop B = d2.mem.drop B)
    (hsz : ∀ i : Nat, (hs1[i]?).map (fun h : bundleHeader => h.size) =
      (hs2[i]?).map (fun h : bundleHeader => h.size)) :
    ∀ (r i start : Nat) (items : List DataItem), B ≤ start →
      decodeBundleLoop cfg um d1 hs1 r i start items =
        decodeBundleLoop cfg um d2 hs2 r i start items := by
  intro r
  induction r with
  | zero => intro i start items _; rfl
  | succ r ih =>
    intro i start items hstart
    have hi := hsz i
    cases h1 : hs1[i]? with
    | none =>
      rw [h1] at hi
      cases h2 : hs2[i]? with
      | none => simp only [decodeBundleLoop, h1, h2]
      | some b => rw [h2] at hi; cases hi
    | some a =>
      rw [h1] at hi
      cases h2 : hs2[i]? with
      | none => rw [h2] at hi; cases hi
      | some b =>
        rw [h2] at hi
        simp only [Option.map_some', Option.some.injEq] at hi
        have hsl : DecodeDataItemAt cfg um d1 start (start + a.size) =
            DecodeDataItemAt cfg um d2 start (start + b.size) := by
          simp only [DecodeDataItemAt, hi,
            slice_congr d1 d2 start (start + b.size) hcap
              (drop_congr_of_le _ _ B start hrest hstart)]
        simp only [decodeBundleLoop, h1, h2, hsl]
        cases DecodeDataItemAt cfg um d2 start (start + b.size) with
        | error f => rfl
        | ok item =>
          simp only []
          rw [hi]
          exact ih (i + 1) (start + b.size) _ (by omega)

/-- The function `decodeBundleHeader` in terms of the capacity: it returns the `N`
headers when the table ends inside the capacity and panics otherwise. -/
theorem decodeBundleHeader_eq (data : GoSlice) :
    decodeBundleHeader data =
      if 32 + 64 * declaredCount data ≤ data.mem.length then
        .ok ((List.range (declaredCount data)).map (fun k => headerAt data (32 + 64 * k)),
          declaredCount data)
      else .error (.panic .sliceBoundsOutOfRange) := by
  have e2 : data.mem.getD 0 0 + 256 * data.mem.getD 1 0 = declaredCount data := rfl
  by_cases h32 : 32 ≤ data.mem.length
  · have e1 := slice_eq_ok data 0 32 (by omega) h32
    simp only [decodeBundleHeader, e1, bind, Except.bind]
    rw [littleEndianUint16_mk _ _ _ (by omega)]
    simp only [List.drop_zero]
    rw [e2]
    by_cases h : 32 + 64 * declaredCount data ≤ data.mem.length
    · rw [decodeBundleHeaderLoop_ok data _ 32 [] h]
      simp only [h, if_true]
      rfl
    · rw [decodeBundleHeaderLoop_panic data _ 32 [] (by omega) (by omega)]
      simp only [h, if_false]
  · have e1 := slice_eq_panic data 0 32 (by omega)
    have h : ¬ 32 + 64 * declaredCount data ≤ data.mem.length := by omega
    simp only [decodeBundleHeader, e1, bind, Except.bind, h, if_false]

theorem littleEndianValue_mod (l : List Nat) (h : ∀ b ∈ l, b < 256) :
    littleEndianValue l % 65536 = l.getD 0 0 + 256 * l.getD 1 0 := by
  cases l with
  | nil => rfl
  | cons b0 t =>
    have h0 : b0 < 256 := h b0 (List.mem_cons_self _ _)
    cases t with
    | nil =>
      simp only [littleEndianValue, List.getD_cons_zero, List.getD_cons_succ, List.getD_nil]
      omega
    | cons b1 rest =>
      have h1 : b1 < 256 := h b1 (List.mem_cons_of_mem _ (List.mem_cons_self _ _))
      simp only [littleEndianValue, List.getD_cons_zero, List.getD_cons_succ]
      omega

/-- The value read from a field of `w ≥ 2` bytes at offset `i` is the little-endian
value of the field modulo 65536. -/
theorem uint16At_eq_field_mod (data : GoSlice) (i w : Nat)
    (hb : ∀ b ∈ data.mem, b < 256) (hw : 2 ≤ w) :
    uint16At data i = littleEndianValue (itemBytes data i (i + w)) % 65536 := by
  have hmem : ∀ b ∈ itemBytes data i (i + w), b < 256 := by
    intro b hbm
    exact hb b (List.mem_of_mem_drop (List.mem_of_mem_take hbm))
  rw [littleEndianValue_mod _ hmem]
  simp only [itemBytes, Nat.add_sub_cancel_left, uint16At, List.getD_eq_getElem?_getD,
    List.getElem?_take_of_lt (by omega : 0 < w), List.getElem?_take_of_lt (by omega : 1 < w),
    List.getElem?_drop, Nat.add_zero]

/-- Claim C19, as the code has it. The items returned by `DecodeBundle` depend only on
the first two bytes of the count field, the first two bytes of each size field and what
the backing array holds from offset `32 + 64 * N` on, up to the capacity: two buffers
of equal length and equal capacity that agree on those bytes (the bytes between length
and capacity included), whatever bytes 2 to 31 of the count field and of the size
fields and whatever id fields they hold, make `DecodeBundle` fail on both in the same
way or succeed on both with the same `Items`.  The count and each size that
`decodeBundleHeader` returns are the little-endian value of their 32-byte field modulo
65536, which is the value of the field exactly when that value is below 65536. -/
theorem DecodeBundle_items_depend_on_read_bytes (cfg : Nat → Option SignatureMeta)
    (um : List Nat → Except AvroError (List AvroRecord)) (d1 d2 : GoSlice)
    (hlen : d1.len = d2.len) (hcap : d1.mem.length = d2.mem.length)
    (h0 : d1.mem.getD 0 0 = d2.mem.getD 0 0) (h1 : d1.mem.getD 1 0 = d2.mem.getD 1 0)
    (hsz : ∀ i, i < declaredCount d1 →
      d1.mem.getD (32 + 64 * i) 0 = d2.mem.getD (32 + 64 * i) 0 ∧
      d1.mem.getD (32 + 64 * i + 1) 0 = d2.mem.getD (32 + 64 * i + 1) 0)
    (hrest : d1.mem.drop (32 + 64 * declaredCount d1) =
      d2.mem.drop (32 + 64 * declaredCount d1)) :
    (DecodeBundle cfg um d1).map (fun b => b.Items) =
      (DecodeBundle cfg um d2).map (fun b => b.Items) ∧
    ((∀ b ∈ d1.mem, b < 256) → ∀ headers N, decodeBundleHeader d1 = .ok (headers, N) →
      N = littleEndianValue (itemBytes d1 0 32) % 65536 ∧
      (N = littleEndianValue (itemBytes d1 0 32) ↔
        littleEndianValue (itemBytes d1 0 32) < 65536) ∧
      headers.length = N ∧
      ∀ i (hi : i < headers.length),
        (headers.get ⟨i, hi⟩).size =
          littleEndianValue (itemBytes d1 (32 + 64 * i) (32 + 64 * i + 32)) % 65536 ∧
        ((headers.get ⟨i, hi⟩).size =
            littleEndianValue (itemBytes d1 (32 + 64 * i) (32 + 64 * i + 32)) ↔
          littleEndianValue (itemBytes d1 (32 + 64 * i) (32 + 64 * i + 32)) < 65536)) := by
  have hN : declaredCount d2 = declaredCount d1 := by
    simp only [declaredCount, uint16At, h0, h1]
  constructor
  · by_cases h32 : d1.len < 32
    · have h32b : d2.len < 32 := by omega
      simp only [DecodeBundle, h32, h32b, if_true]
    have hlen1 : 32 ≤ d1.len := by omega
    have hlen2 : 32 ≤ d2.len := by omega
    by_cases ht : 32 + 64 * declaredCount d1 ≤ d1.mem.length
    · rw [DecodeBundle_eq_loop cfg um d1 hlen1 (by simp only [itemOffset]; exact ht),
        DecodeBundle_eq_loop cfg um d2 hlen2 (by simp only [itemOffset, hN]; omega)]
      simp only [hN, itemOffset]
      rw [decodeBundleLoop_congr cfg um d1 d2 _
        ((List.range (declaredCount d1)).map (fun k => headerAt d2 (32 + 64 * k)))
        (32 + 64 * declaredCount d1) hcap hrest ?_ _ 0 _ _ (le_refl _)]
      · cases decodeBundleLoop cfg um d2
          ((List.range (declaredCount d1)).map (fun k => headerAt d2 (32 + 64 * k)))
          (declaredCount d1) 0 (32 + 64 * declaredCount d1)
          (List.replicate (declaredCount d1) DataItem.zero) <;> rfl
      · intro i
        by_cases hi : i < declaredCount d1
        · obtain ⟨ha, hb⟩ := hsz i hi
          simp only [List.getElem?_map, List.getElem?_range hi, Option.map_some', headerAt,
            uint16At, ha, hb]
        · have hnone : (List.range (declaredCount d1))[i]? = none := by
            apply List.getElem?_eq_none
            simp only [List.length_range]
            omega
          simp only [List.getElem?_map, hnone, Option.map_none']
    · rw [DecodeBundle_table_panic cfg um d1 hlen1 (by omega),
        DecodeBundle_table_panic cfg um d2 hlen2 (by rw [hN]; omega)]
  · intro hb headers N hdec
    rw [decodeBundleHeader_eq] at hdec
    by_cases ht : 32 + 64 * declaredCount d1 ≤ d1.mem.length
    swap
    · simp only [ht, if_false] at hdec
      cases hdec
    simp only [ht, if_true, Except.ok.injEq, Prod.mk.injEq] at hdec
    obtain ⟨hh, hNN⟩ := hdec
    subst hh
    subst hNN
    have hcnt := uint16At_eq_field_mod d1 0 32 hb (by omega)
    simp only [Nat.zero_add] at hcnt
    refine ⟨hcnt, ?_, by simp, ?_⟩
    · rw [show declaredCount d1 = uint16At d1 0 from rfl, hcnt]
      constructor
      · intro h
        rw [← h]
        exact Nat.mod_lt _ (by decide)
      · intro h
        exact Nat.mod_eq_of_lt h
    · intro i hi
      have hi2 : i < declaredCount d1 := by simpa using hi
      have hsize : ((List.range (declaredCount d1)).map
          (fun k => headerAt d1 (32 + 64 * k))).get ⟨i, hi⟩ = headerAt d1 (32 + 64 * i) := by
        simp
      rw [hsize]
      have hfield := uint16At_eq_field_mod d1 (32 + 64 * i) 32 hb (by omega)
      simp only [headerAt]
      refine ⟨hfield, ?_⟩
      rw [hfield]
      constructor
      · intro h
        rw [← h]
        exact Nat.mod_lt _ (by decide)
      · intro h
        exact Nat.mod_eq_of_lt h

/-- The bundles `sampleBundle` and `sampleNoisyBundle` differ in bytes 2 to 31 of the
count field and of both size fields and in both id fields only: `DecodeBundle` returns
the same items for both (an instance of C19). -/
theorem DecodeBundle_items_depend_on_read_bytes_witness :
    (DecodeBundle sampleSignatureConfig avroUnmarshal sampleBundle).map (fun b => b.Items) =
      (DecodeBundle sampleSignatureConfig avroUnmarshal sampleNoisyBundle).map
        (fun b => b.Items) :=
  (DecodeBundle_items_depend_on_read_bytes sampleSignatureConfig avroUnmarshal sampleBundle
    sampleNoisyBundle (by decide) (by decide) (by decide) (by decide)
    (by
      intro i hi
      have h2 : declaredCount sampleBundle = 2 := by decide
      rw [h2] at hi
      interval_cases i <;> decide)
    (by decide)).1

/-- Claim C19, counterexample. Three buffers of the same length 146 and with the same
146 bytes, so that they agree on every byte the claim names: the header declares an
item of 110 bytes from offset 96, and `data[96:206]` is checked against the capacity.
With capacity 146 `DecodeBundle` panics; over a backing array that goes on with 60 zero
bytes it returns an item with the payload `0, 0`; over one that goes on with 58 zero
bytes and `5, 6` it returns an item with the payload `5, 6`. -/
theorem DecodeBundle_items_depend_on_capacity :
    (sampleCutBundle []).len = 146 ∧
    (sampleCutBundle (List.replicate 60 0)).len = 146 ∧
    (sampleCutBundle (List.replicate 58 0 ++ [5, 6])).len = 146 ∧
    (sampleCutBundle []).bytes = sampleCutBundleBytes ∧
    (sampleCutBundle (List.replicate 60 0)).bytes = sampleCutBundleBytes ∧
    (sampleCutBundle (List.replicate 58 0 ++ [5, 6])).bytes = sampleCutBundleBytes ∧
    (DecodeBundle sampleSignatureConfig avroUnmarshal (sampleCutBundle [])).map
        (fun b => b.Items) = .error (.panic .sliceBoundsOutOfRange) ∧
    (DecodeBundle sampleSignatureConfig avroUnmarshal
        (sampleCutBundle (List.replicate 60 0))).map (fun b => b.Items) =
      .ok [sampleDataItem [0, 0]] ∧
    (DecodeBundle sampleSignatureConfig avroUnmarshal
        (sampleCutBundle (List.replicate 58 0 ++ [5, 6]))).map (fun b => b.Items) =
      .ok [sampleDataItem [5, 6]] ∧
    sampleDataItem [0, 0] ≠ sampleDataItem [5, 6] := by
  decide

end bundle
